import Mathlib

set_option maxRecDepth 20000

/-!
Verification of the page-discovery and job-orchestration core of the
knowledge-base generator service (`grand_spider_knowledge.py`).

The Python source is shallowly embedded as executable Lean functions:

* Strings are Lean `String`s, but every operation on them is implemented
  here by structural recursion over the underlying character list
  (`String.data`), so that all definitions evaluate inside the kernel.
  Each helper mirrors the corresponding Python `str` method
  (`split`/`splitlines`/`strip`/`lower`/`startswith`/`endswith`/slicing).
* The network is an explicit finite association list `Net` from URL to
  `Option HttpResponse`; `none` models a fetch that raises
  `requests.exceptions.RequestException` (the only network failure the
  source ever handles).  HTML/XML parsing (BeautifulSoup / ElementTree)
  is modelled by direct substring scanners (`extractLocs`,
  `extractHrefs`, `getPageTitleFromHtml`) which agree with the parsers
  on well-formed documents and yield nothing on garbage, matching the
  source's behaviour of swallowing `ET.ParseError`.
* Python's unbounded `while` loops become fuel-indexed recursions that
  return `none` when the fuel runs out; termination statements say that
  an explicitly computed fuel always suffices.
* The OpenAI collaborator calls (language detection, page selection,
  extraction, compilation) are opaque text services per §6 of the spec;
  they enter the model as oracle parameters, and the orchestrator logic
  around them is embedded faithfully.
-/

/-! ## Character-list string primitives (Python `str` semantics) -/

/-- Tests whether the first list is an initial segment of the second. -/
def leadsWith : List Char → List Char → Bool
  | [], _ => true
  | _ :: _, [] => false
  | p :: ps, c :: cs => p == c && leadsWith ps cs

/-- Fuelled worker for `splitChars`; the fuel dominates the list length,
so the `0` case is never reached by `splitChars`. -/
def splitCharsF (sep : List Char) : Nat → List Char → List (List Char)
  | 0, l => [l]
  | _ + 1, [] => [[]]
  | f + 1, c :: cs =>
    if leadsWith sep (c :: cs) && !sep.isEmpty then
      [] :: splitCharsF sep f (List.drop (sep.length - 1) cs)
    else
      match splitCharsF sep f cs with
      | [] => [[c]]
      | g :: gs => (c :: g) :: gs

/-- Splits a character list on a (non-empty) separator, like Python
`str.split(sep)`: left-to-right, non-overlapping, keeping empty pieces. -/
def splitChars (sep l : List Char) : List (List Char) := splitCharsF sep (l.length + 1) l

/-- Python `s.split(sep)`. -/
def strSplitOn (s sep : String) : List String := (splitChars sep.data s.data).map String.mk

/-- Python `s.lower()` (ASCII case folding suffices for the source's uses). -/
def strToLower (s : String) : String := String.mk (s.data.map Char.toLower)

/-- Drops leading whitespace characters. -/
def charsTrimLeft : List Char → List Char
  | [] => []
  | c :: cs => if c.isWhitespace then charsTrimLeft cs else c :: cs

/-- Python `s.strip()`. -/
def strTrim (s : String) : String :=
  String.mk (charsTrimLeft (charsTrimLeft s.data.reverse).reverse)

/-- Python `s.startswith(p)`. -/
def strStartsWith (s p : String) : Bool := leadsWith p.data s.data

/-- Python `s.endswith(p)`. -/
def strEndsWith (s p : String) : Bool := leadsWith p.data.reverse s.data.reverse

/-- Python `pat in hay` substring membership. -/
def containsSub (hay pat : String) : Bool := (splitChars pat.data hay.data).length > 1

/-- Python `sep.join(l)`. -/
def strIntercalate (sep : String) (l : List String) : String :=
  String.mk (match l with
  | [] => []
  | x :: xs => xs.foldl (fun acc s => acc ++ sep.data ++ s.data) x.data)

/-- Python `s[:n]` for non-negative `n` (character count). -/
def strTake (s : String) (n : Nat) : String := String.mk (s.data.take n)

/-- Python `len(s)` (character count). -/
def strLength (s : String) : Nat := s.data.length

/-- Python `s.splitlines()` restricted to `\n` separators, which is the
only line terminator relevant to the robots.txt / plain-text sitemap
formats consumed by the source. -/
def splitLines (s : String) : List String := strSplitOn s "\n"

/-! ## URL helpers (`urllib.parse` as used by the source)

The source uses `urlparse(u).netloc`, `urlparse(u)._replace(fragment="",
query="").geturl()` and `urljoin`.  The models below cover the URL shapes
that actually flow through the program: absolute `scheme://host/path`
URLs, absolute-path references (`/robots.txt`), and plain relative
references; `urljoinM` resolves a relative reference against the site
root rather than the current page's directory, which is adequate for
every property proved here (none depends on directory-relative
resolution). -/

/-- Python `urlparse(u).netloc`: the text between `://` and the first
`/`, `?` or `#`; empty for URLs without a scheme separator.  Note that
`urlparse` preserves the case of the netloc, and so does this model. -/
def netloc (u : String) : String :=
  match strSplitOn u "://" with
  | _ :: rest :: _ =>
    ((strSplitOn ((strSplitOn ((strSplitOn rest "/").headD "") "?").headD "") "#").headD "")
  | _ => ""

/-- Python `urlparse(u)._replace(fragment="", query="").geturl()`: the
crawlers' URL normalisation, dropping everything from the first `#`,
then everything from the first `?`. -/
def stripFragQuery (u : String) : String :=
  (strSplitOn ((strSplitOn u "#").headD u) "?").headD u

/-- The `scheme://host` part of an absolute URL. -/
def schemeHost (u : String) : String :=
  match strSplitOn u "://" with
  | scheme :: rest :: _ => scheme ++ "://" ++ ((strSplitOn rest "/").headD "")
  | _ => ""

/-- Python `urljoin(base, path)` for an absolute-path reference
(`path` starting with `/`), the only form the sitemap resolver joins. -/
def urljoinAbs (base path : String) : String := schemeHost base ++ path

/-- Python `urljoin(cur, href)` restricted to the three reference shapes
relevant here: absolute URLs, absolute-path references, and bare
relative references (resolved against the site root). -/
def urljoinM (cur href : String) : String :=
  if containsSub href "://" then href
  else if strStartsWith href "/" then schemeHost cur ++ href
  else schemeHost cur ++ "/" ++ href

/-- Modelled from the spec: the *specification's* URL-normalisation
notion used by the C4 dedup invariant — fragment and query stripped and
the host lower-cased.  (The code's own crawler normalisation,
`stripFragQuery`, does not lower-case the host, and the sitemap path
stores URLs entirely raw; this definition exists to compare the spec's
claim against the code's aggregate map.) -/
def normalizeClaim (u : String) : String :=
  let s := stripFragQuery u
  match strSplitOn s "://" with
  | scheme :: rest :: _ =>
    let nl := (strSplitOn rest "/").headD ""
    scheme ++ "://" ++ strToLower nl ++ String.mk (rest.data.drop nl.data.length)
  | _ => s

/-! ## The network model -/

/-- One HTTP response: status code, `Content-Type` header and body text. -/
structure HttpResponse where
  status : Nat
  contentType : String
  body : String
deriving DecidableEq

/-- A finite network: URL ↦ response, with `none` (or an absent key)
modelling a fetch that raises `requests.exceptions.RequestException`. -/
abbrev Net := List (String × Option HttpResponse)

/-- Performs a `requests.get`: `none` is a raised request exception. -/
def fetchNet (net : Net) (u : String) : Option HttpResponse :=
  match net.lookup u with
  | some r => r
  | none => none

/-! ## Document scanners (BeautifulSoup / ElementTree models) -/

/-- Model of `get_page_title_from_html`: the trimmed text of the first
`<title>` element, `"N/A"` when absent or empty. -/
def getPageTitleFromHtml (html : String) : String :=
  match strSplitOn html "<title>" with
  | _ :: part :: _ =>
    match strSplitOn part "</title>" with
    | t :: _ :: _ => if strTrim t = "" then "N/A" else strTrim t
    | _ => "N/A"
  | _ => "N/A"

/-- Model of `get_sitemap_urls_from_xml`: the trimmed, non-empty texts
of all `<loc>` elements of a sitemap document, in document order.  The
`ElementTree` original lists `<sitemap><loc>` texts a second time; that
duplication is dropped here because every consumer immediately
deduplicates (seen-set or result set).  A document with no well-formed
`<loc>` element — in particular any malformed XML, where the original
catches `ET.ParseError` — yields `[]`. -/
def extractLocs (xml : String) : List String :=
  match strSplitOn xml "<loc>" with
  | [] => []
  | _ :: rest => rest.filterMap (fun part =>
      match strSplitOn part "</loc>" with
      | t :: _ :: _ => if strTrim t = "" then none else some (strTrim t)
      | _ => none)

/-- Model of harvesting `<a href>` targets from a document
(BeautifulSoup `find_all('a', href=True)` / Selenium anchor scan):
every `href="…"` attribute value in document order. -/
def extractHrefs (html : String) : List String :=
  match strSplitOn html "href=\"" with
  | [] => []
  | _ :: rest => rest.filterMap (fun part => (strSplitOn part "\"").head?)

/-- Python `line.split(":", 1)[1]`: everything after the first colon. -/
def afterFirstColon (line : String) : String :=
  match strSplitOn line ":" with
  | [] => ""
  | [_] => ""
  | _ :: rest => strIntercalate ":" rest

/-- The `Sitemap:` directive values of a robots.txt body, mirroring the
line scan of `find_sitemap_urls` (case-insensitive directive match on
the stripped line, value split off the raw line at its first colon). -/
def robotsSitemapLines (body : String) : List String :=
  (splitLines body).filterMap (fun line =>
    if strStartsWith (strToLower (strTrim line)) "sitemap:" then
      some (strTrim (afterFirstColon line))
    else none)

/-! ## Sitemap Resolver (`find_sitemap_urls`)

State of the breadth-first sitemap work-queue loop.  `queue` and
`processed` are the source's `sitemap_paths_to_check` deque and
`processed_sitemap_urls` seen-set; `acc` is the `final_page_urls` set
(modelled as an insertion-ordered duplicate-free list); `trace` is a
ghost observable recording, in order, every sitemap URL for which a
fetch was issued. -/

structure SmState where
  queue : List String
  processed : List String
  acc : List String
  trace : List String
deriving DecidableEq

/-- Adds to a set-as-list only when absent (`set.add` semantics). -/
def insertUnique (l : List String) (u : String) : List String :=
  if u ∈ l then l else l ++ [u]

/-- Enqueues a sitemap URL unless already seen, marking it seen — the
source's `if sitemap_url not in processed_sitemap_urls: append; add`. -/
def enqueueIfNew (s : SmState) (u : String) : SmState :=
  if u ∈ s.processed then s
  else { s with queue := s.queue ++ [u], processed := s.processed ++ [u] }

/-- Did the resolver take the XML branch for this response/URL pair
(`'xml' in content_type or sitemap_url.endswith('.xml')`)? -/
def sitemapBranchIsXml (r : HttpResponse) (u : String) : Bool :=
  containsSub (strToLower r.contentType) "xml" || strEndsWith u ".xml"

/-- Did the resolver take the plain-text branch
(`'text/plain' in content_type or sitemap_url.endswith('.txt')`)? -/
def sitemapBranchIsTxt (r : HttpResponse) (u : String) : Bool :=
  containsSub (strToLower r.contentType) "text/plain" || strEndsWith u ".txt"

/-- One extracted `<loc>` value of a fetched XML sitemap: nested
sitemaps (`.xml` suffix) are enqueued through the seen-set; other URLs
on the base host are added to the page-URL result set. -/
def sitemapXmlStep (base : String) (s : SmState) (e : String) : SmState :=
  if strEndsWith e ".xml" then
    if e ∈ s.processed then s
    else { s with queue := s.queue ++ [e], processed := s.processed ++ [e] }
  else if netloc e == netloc base then { s with acc := insertUnique s.acc e }
  else s

/-- One line of a fetched plain-text sitemap: stripped lines that start
with `http` and sit on the base host are added to the result set. -/
def sitemapTxtStep (base : String) (s : SmState) (line : String) : SmState :=
  let u := strTrim line
  if strStartsWith u "http" && netloc u == netloc base then
    { s with acc := insertUnique s.acc u }
  else s

/-- Processes one dequeued sitemap URL, mirroring the body of the
`while sitemap_paths_to_check` loop: a failed fetch or non-200 status
is skipped, otherwise the XML or plain-text branch runs. -/
def processSitemap (net : Net) (base : String) (s : SmState) (u : String) : SmState :=
  match fetchNet net u with
  | none => s
  | some r =>
    if r.status == 200 then
      if sitemapBranchIsXml r u then
        (extractLocs r.body).foldl (sitemapXmlStep base) s
      else if sitemapBranchIsTxt r u then
        (splitLines r.body).foldl (sitemapTxtStep base) s
      else s
    else s

/-- The page URLs a single sitemap fetch contributes to the result set
(empty on fetch failure, non-200 status, or a content type neither
branch accepts). -/
def pagesOf (net : Net) (base u : String) : List String :=
  match fetchNet net u with
  | none => []
  | some r =>
    if r.status == 200 then
      if sitemapBranchIsXml r u then
        (extractLocs r.body).filter (fun e => !strEndsWith e ".xml" && netloc e == netloc base)
      else if sitemapBranchIsTxt r u then
        (splitLines r.body).filterMap (fun line =>
          let v := strTrim line
          if strStartsWith v "http" && netloc v == netloc base then some v else none)
      else []
    else []

/-- The nested sitemap URLs a single sitemap fetch feeds back into the
work queue. -/
def sitemapLocsOf (net : Net) (u : String) : List String :=
  match fetchNet net u with
  | none => []
  | some r =>
    if r.status == 200 && sitemapBranchIsXml r u then
      (extractLocs r.body).filter (fun e => strEndsWith e ".xml")
    else []

/-- The fuelled work-queue loop of `find_sitemap_urls`: pop, fetch
(recorded in the ghost `trace`), process; `none` only when the fuel is
exhausted with the queue still non-empty. -/
def sitemapLoop (net : Net) (base : String) : Nat → SmState → Option SmState
  | 0, s => match s.queue with
    | [] => some s
    | _ :: _ => none
  | f + 1, s => match s.queue with
    | [] => some s
    | u :: rest =>
      sitemapLoop net base f
        (processSitemap net base { s with queue := rest, trace := s.trace ++ [u] } u)

/-- The conventional sitemap paths probed unconditionally. -/
def commonSitemapPaths : List String :=
  ["/sitemap.xml", "/sitemap_index.xml", "/sitemap.php", "/sitemap.txt"]

/-- The queue/seen-set state after the robots.txt phase of
`find_sitemap_urls`: `Sitemap:` directives are enqueued when the robots
fetch returns 200, nothing otherwise. -/
def initRobots (net : Net) (base : String) : SmState :=
  match fetchNet net (urljoinAbs base "/robots.txt") with
  | some r =>
    if r.status == 200 then (robotsSitemapLines r.body).foldl enqueueIfNew ⟨[], [], [], []⟩
    else ⟨[], [], [], []⟩
  | none => ⟨[], [], [], []⟩

/-- The resolver's initial state: robots.txt `Sitemap:` directives
followed by the conventional paths, all enqueued through the seen-set. -/
def initState (net : Net) (base : String) : SmState :=
  commonSitemapPaths.foldl (fun s p => enqueueIfNew s (urljoinAbs base p)) (initRobots net base)

/-- Model of `find_sitemap_urls(base_url)`.  The source's return value
is the state's `acc` (its `list(final_page_urls)`); `processed` and
`trace` are ghost observables of the run. -/
def find_sitemap_urls (net : Net) (base : String) (fuel : Nat) : Option SmState :=
  sitemapLoop net base fuel (initState net base)

/-- Every `.xml`-suffixed `<loc>` value occurring in any response body
of the network — a finite superset of everything the loop can ever
enqueue, used to bound its fuel. -/
def netXmlUrls (net : Net) : List String :=
  net.foldr (fun p acc =>
    match p.2 with
    | some r => (extractLocs r.body).filter (fun e => strEndsWith e ".xml") ++ acc
    | none => acc) []

/-- Termination measure of the sitemap loop: queue length plus the
not-yet-seen potential nested sitemaps. -/
def muSm (net : Net) (st : SmState) : Nat :=
  st.queue.length + ((netXmlUrls net).filter (fun x => !(st.processed.contains x))).length

/-- A fuel value sufficient for `find_sitemap_urls` to drain its queue
on any network. -/
def suffSitemapFuel (net : Net) (base : String) : Nat :=
  (initState net base).queue.length + (netXmlUrls net).length

/-- Loop invariant: every seen sitemap URL has either already
contributed its page URLs to the result set, or is still queued. -/
def SmInv (net : Net) (base : String) (st : SmState) : Prop :=
  ∀ w ∈ st.processed, (∀ p ∈ pagesOf net base w, p ∈ st.acc) ∨ w ∈ st.queue

/-- Well-formedness of the loop state: the queue and the fetch trace
are duplicate-free, disjoint, and both covered by the seen-set. -/
def SmWf (st : SmState) : Prop :=
  st.queue.Nodup ∧ st.trace.Nodup ∧ (∀ x ∈ st.trace, x ∉ st.queue) ∧
  (∀ x ∈ st.queue, x ∈ st.processed) ∧ (∀ x ∈ st.trace, x ∈ st.processed)

/-! ## Concrete fixture networks for the sitemap claims -/

/-- Root URL of the fixture site. -/
def exBase : String := "https://example.test/"

/-- A sitemap graph with a cycle `smA.xml → smB.xml → smA.xml`, each
index also listing one page URL; `robots.txt` advertises `smA.xml`. -/
def cycNet : Net :=
  [ ("https://example.test/robots.txt",
     some ⟨200, "text/plain", "User-agent: *\nSitemap: https://example.test/smA.xml\n"⟩),
    ("https://example.test/smA.xml",
     some ⟨200, "application/xml",
       "<sitemapindex><sitemap><loc>https://example.test/smB.xml</loc></sitemap><url><loc>https://example.test/pa</loc></url></sitemapindex>"⟩),
    ("https://example.test/smB.xml",
     some ⟨200, "application/xml",
       "<sitemapindex><sitemap><loc>https://example.test/smA.xml</loc></sitemap><url><loc>https://example.test/pb</loc></url></sitemapindex>"⟩) ]

/-- The §8 end-to-end scenario: robots.txt advertises `sitemap.xml`,
which lists three page URLs plus one nested sitemap with two more. -/
def c5Net : Net :=
  [ ("https://example.test/robots.txt",
     some ⟨200, "text/plain", "User-agent: *\nSitemap: https://example.test/sitemap.xml\n"⟩),
    ("https://example.test/sitemap.xml",
     some ⟨200, "application/xml",
       "<urlset><url><loc>https://example.test/p1</loc></url><url><loc>https://example.test/p2</loc></url><url><loc>https://example.test/p3</loc></url><sitemap><loc>https://example.test/sm2.xml</loc></sitemap></urlset>"⟩),
    ("https://example.test/sm2.xml",
     some ⟨200, "application/xml",
       "<urlset><url><loc>https://example.test/p4</loc></url><url><loc>https://example.test/p5</loc></url></urlset>"⟩) ]

/-- A network where the robots.txt fetch raises, one conventional
sitemap works, one returns a 500 status and one returns malformed XML. -/
def failNet : Net :=
  [ ("https://example.test/sitemap.xml",
     some ⟨200, "application/xml",
       "<urlset><url><loc>https://example.test/ok1</loc></url><url><loc>https://example.test/ok2</loc></url></urlset>"⟩),
    ("https://example.test/sitemap_index.xml",
     some ⟨500, "text/html", "internal server error"⟩),
    ("https://example.test/sitemap.php",
     some ⟨200, "application/xml", "<html><body>not a sitemap at all"⟩) ]

/-! ## Fallback Crawler (`simple_crawl_website`, `selenium_crawl_website`) -/

/-- One discovered-page record as the source builds them: url, title,
discovery-status tag and optionally cached HTML (`html_source`). -/
structure PageRec where
  url : String
  title : String
  status : String
  html_source : Option String
deriving DecidableEq

/-- Model of `fetch_url_html_content(url, for_lang_detect=True)` and of
the crawler's in-loop page fetch: success requires a non-raising fetch,
a success status (`raise_for_status`, abstracted here to the one
success code 200) and an HTML content type; the body
text is returned (the source's chunk bounds only shorten it). -/
def fetchHtmlOk (net : Net) (u : String) : Option String :=
  match fetchNet net u with
  | none => none
  | some r =>
    if r.status == 200 && containsSub (strToLower r.contentType) "text/html" then some r.body
    else none

/-- Model of `fetch_url_html_content(url)` (full fetch, no content-type
check): success requires a non-raising fetch and a success status
(`raise_for_status`, abstracted to 200). -/
def fetchFull (net : Net) (u : String) : Option String :=
  match fetchNet net u with
  | none => none
  | some r => if r.status == 200 then some r.body else none

/-- One link-enqueue check, shared verbatim by both crawler variants
(and by the HTTP variant's seed scan, which runs without the queue-size
cap, `capCount = none`): the `href` is resolved against the current
page, normalised by `stripFragQuery`, and appended only if it is on the
base domain, not yet visited, not already queued, and (in-loop) the
`len(queue) + processed_count < max_pages + 50` cap holds. -/
def enqueueStep (d : String) (visited : List String) (cur : String) (maxP : Nat)
    (capCount : Option Nat) (q : List String) (href : String) : List String :=
  let absu := stripFragQuery (urljoinM cur href)
  let capOk := match capCount with
    | none => true
    | some c => decide (q.length + c < maxP + 50)
  if netloc absu == d && !(visited.contains absu) && !(q.contains absu) && capOk then
    q ++ [absu]
  else q

/-- The link-harvest loop body: fold `enqueueStep` over the hrefs. -/
def enqueueLinks (d : String) (visited : List String) (cur : String) (maxP : Nat)
    (capCount : Option Nat) (hrefs : List String) (queue : List String) : List String :=
  hrefs.foldl (enqueueStep d visited cur maxP capCount) queue

/-- Transient state of one crawl invocation (§3 CrawlFrontier plus the
harvested records and the processed-page counter). -/
structure CrawlState where
  visited : List String
  queue : List String
  found : List PageRec
  count : Nat
deriving DecidableEq

/-- Processing one freshly-visited URL in the HTTP crawl: fetch
(skipping the record on exception or non-HTML), record the page, and
harvest links while still under budget. -/
def simpleCrawlVisit (net : Net) (d : String) (maxP : Nat) (cur : String)
    (st1 : CrawlState) : CrawlState :=
  match fetchHtmlOk net cur with
  | none => st1
  | some html =>
    let st2 := { st1 with
      found := st1.found ++
        [⟨cur, getPageTitleFromHtml html, "found_by_simple_fallback_crawl", none⟩],
      count := st1.count + 1 }
    if st2.count < maxP then
      { st2 with queue :=
          enqueueLinks d st2.visited cur maxP (some st2.count) (extractHrefs html) st2.queue }
    else st2

/-- The fuelled loop of `simple_crawl_website`: `while queue and
processed_count < max_pages`: pop; skip if already visited; mark
visited and process the page. -/
def simpleCrawlLoop (net : Net) (d : String) (maxP : Nat) : Nat → CrawlState → Option CrawlState
  | 0, st => if st.queue.isEmpty || !decide (st.count < maxP) then some st else none
  | f + 1, st =>
    match st.queue with
    | [] => some st
    | cur :: rest =>
      if !decide (st.count < maxP) then some st
      else if st.visited.contains cur then simpleCrawlLoop net d maxP f { st with queue := rest }
      else
        simpleCrawlLoop net d maxP f
          (simpleCrawlVisit net d maxP cur
            { st with queue := rest, visited := st.visited ++ [cur] })

/-- Model of `simple_crawl_website(base_url, max_pages_to_discover)`:
seed the frontier from the root page's links (same checks, no cap),
then run the loop. -/
def simple_crawl_website (net : Net) (base : String) (maxP fuel : Nat) :
    Option (List PageRec) :=
  let d := netloc base
  let q0 := match fetchHtmlOk net base with
    | some html => enqueueLinks d [] base maxP none (extractHrefs html) []
    | none => []
  (simpleCrawlLoop net d maxP fuel ⟨[], q0, [], 0⟩).map CrawlState.found

/-- Processing one freshly-visited URL in the browser crawl: navigate
(skipping the record on any page error), record the rendered page with
its HTML source, and harvest live links while still under budget.  A
browser navigation renders whatever comes back regardless of status
code, so success is any non-raising fetch. -/
def seleniumCrawlVisit (net : Net) (d : String) (maxP : Nat) (cur : String)
    (st1 : CrawlState) : CrawlState :=
  match fetchNet net cur with
  | none => st1
  | some r =>
    let st2 := { st1 with
      found := st1.found ++
        [⟨cur, getPageTitleFromHtml r.body, "found_by_selenium_discovery", some r.body⟩],
      count := st1.count + 1 }
    if st2.count < maxP then
      { st2 with queue :=
          enqueueLinks d st2.visited cur maxP (some st2.count) (extractHrefs r.body) st2.queue }
    else st2

/-- The fuelled loop of `selenium_crawl_website`: pop; skip if already
visited; skip (without marking) if off-domain; mark visited and process
the page. -/
def seleniumCrawlLoop (net : Net) (d : String) (maxP : Nat) : Nat → CrawlState → Option CrawlState
  | 0, st => if st.queue.isEmpty || !decide (st.count < maxP) then some st else none
  | f + 1, st =>
    match st.queue with
    | [] => some st
    | cur :: rest =>
      if !decide (st.count < maxP) then some st
      else if st.visited.contains cur then seleniumCrawlLoop net d maxP f { st with queue := rest }
      else if !(netloc cur == d) then seleniumCrawlLoop net d maxP f { st with queue := rest }
      else
        seleniumCrawlLoop net d maxP f
          (seleniumCrawlVisit net d maxP cur
            { st with queue := rest, visited := st.visited ++ [cur] })

/-- Model of `selenium_crawl_website(base_url, max_pages_to_discover)`:
the frontier is seeded with the root URL itself, then the loop runs. -/
def selenium_crawl_website (net : Net) (base : String) (maxP fuel : Nat) :
    Option (List PageRec) :=
  let d := netloc base
  (seleniumCrawlLoop net d maxP fuel ⟨[], [base], [], 0⟩).map CrawlState.found

/-- A small crawlable fixture site: the root links to two same-host
pages and one off-host page. -/
def crawlNet : Net :=
  [ ("https://site.test/",
     some ⟨200, "text/html",
       "<html><title>Home</title><a href=\"/a\">A</a><a href=\"/b\">B</a><a href=\"https://other.test/x\">X</a></html>"⟩),
    ("https://site.test/a", some ⟨200, "text/html", "<html><title>A</title></html>"⟩),
    ("https://site.test/b", some ⟨200, "text/html", "<html><title>B</title></html>"⟩) ]

/-! ## Discovery aggregation (`run_knowledge_base_job`, discovery phase)

The aggregate `all_discovered_pages_map` is a Python dict keyed by the
raw URL string; it is modelled as an insertion-ordered association list
`PageMap`.  The stages below mirror, in order: the language-detection
seed fetch, sitemap ingestion, core-page probing, sitemap title
backfill, and the fallback-crawl merge. -/

/-- The aggregate map: URL key ↦ discovered-page record. -/
abbrev PageMap := List (String × PageRec)

/-- In-place update of the record stored under a key (Python dict item
mutation); keys are untouched. -/
def assocUpdate (m : PageMap) (k : String) (f : PageRec → PageRec) : PageMap :=
  m.map (fun p => if p.1 == k then (p.1, f p.2) else p)

/-- Lexicographic comparison of character lists (Python `str <`). -/
def charsLt : List Char → List Char → Bool
  | [], [] => false
  | [], _ :: _ => true
  | _ :: _, [] => false
  | a :: as, b :: bs => if a < b then true else if b < a then false else charsLt as bs

/-- Python `a < b` on strings. -/
def strLt (a b : String) : Bool := charsLt a.data b.data

/-- Insertion into a sorted list. -/
def insertSorted (x : String) : List String → List String
  | [] => [x]
  | y :: ys => if strLt x y then x :: y :: ys else y :: insertSorted x ys

/-- Insertion sort — Python `sorted` on a list of distinct strings. -/
def sortStrings : List String → List String
  | [] => []
  | x :: xs => insertSorted x (sortStrings xs)

/-- `STANDARD_CORE_PAGE_PATHS["english"]`. -/
def STANDARD_CORE_PAGE_PATHS_english : List String :=
  ["about", "about-us", "company", "contact", "contact-us", "support", "help",
   "terms", "terms-and-conditions", "terms-of-service", "legal",
   "privacy", "privacy-policy",
   "shipping", "shipping-policy", "delivery",
   "returns", "return-policy", "refund-policy",
   "faq", "faqs", "how-to-order", "payment-methods", "services"]

/-- `STANDARD_CORE_PAGE_PATHS["persian"]`. -/
def STANDARD_CORE_PAGE_PATHS_persian : List String :=
  ["درباره-ما", "تماس-با-ما", "پشتیبانی", "راهنما", "شرایط", "قوانین-و-مقررات",
   "حریم-خصوصی", "سیاست-حفظ-حریم-خصوصی", "ارسال", "نحوه-ارسال",
   "بازگشت-کالا", "سوالات-متداول", "پرسش-های-متداول", "راهنمای-خرید", "خدمات"]

/-- The path list `probe_core_pages` walks: English paths, extended per
detected language, deduplicated and sorted (`sorted(list(set(...)))`). -/
def probePathsFor (tl : String) : List String :=
  let lang_key := strToLower tl
  let extra :=
    if lang_key = "english" then []
    else if lang_key = "persian" then STANDARD_CORE_PAGE_PATHS_persian
    else ["terms", "privacy", "contact", "about", "faq", "services"]
  sortStrings ((STANDARD_CORE_PAGE_PATHS_english ++ extra).dedup)

/-- `urljoin(base_url + ("/" if not base_url.endswith("/") else ""),
path.lstrip("/"))` for the relative slugs the prober uses. -/
def probeCandidate (base path : String) : String :=
  (if strEndsWith base "/" then base else base ++ "/") ++ path

/-- One probe iteration: a known URL is backfilled with HTML (and a
title when it had none) if missing; an unknown URL is inserted as
`found_by_probe` when its full fetch yields non-empty HTML. -/
def probeStep (net : Net) (base : String) (mp : PageMap) (path : String) : PageMap :=
  let cand := probeCandidate base path
  match mp.lookup cand with
  | some ex =>
    if ex.html_source.isNone then
      match fetchFull net cand with
      | some html =>
        if html = "" then mp
        else assocUpdate mp cand (fun e =>
          { e with html_source := some html,
                   title := if e.title == "N/A" then getPageTitleFromHtml html else e.title })
      | none => mp
    else mp
  | none =>
    match fetchFull net cand with
    | some html =>
      if html = "" then mp
      else mp ++ [(cand, ⟨cand, getPageTitleFromHtml html, "found_by_probe", some html⟩)]
    | none => mp

/-- Model of `probe_core_pages(base_url, target_language, map)`. -/
def probe_core_pages (net : Net) (base tl : String) (m : PageMap) : PageMap :=
  (probePathsFor tl).foldl (probeStep net base) m

/-- Seed entry from the language-detection fetch of the root page. -/
def seedMap (net : Net) (base : String) : PageMap :=
  match fetchHtmlOk net base with
  | some html => [(base, ⟨base, getPageTitleFromHtml html, "lang_detect_fetch", none⟩)]
  | none => []

/-- One sitemap-URL ingestion step
(`if url_from_sitemap not in map: insert`), the URL stored exactly as
the sitemap listed it. -/
def ingestStep (mp : PageMap) (u : String) : PageMap :=
  if (mp.lookup u).isSome then mp
  else mp ++ [(u, ⟨u, "N/A", "sitemap_found", none⟩)]

/-- Sitemap ingestion into the aggregate. -/
def ingestSitemapUrls (m : PageMap) (urls : List String) : PageMap :=
  urls.foldl ingestStep m

/-- `MAX_URLS_FROM_SITEMAP_TO_PROCESS_TITLES`. -/
def MAX_URLS_FROM_SITEMAP_TO_PROCESS_TITLES : Nat := 200

/-- `MIN_DISCOVERED_PAGES_BEFORE_FALLBACK_CRAWL`. -/
def MIN_DISCOVERED_PAGES_BEFORE_FALLBACK_CRAWL : Nat := 20

/-- `MAX_PAGES_FOR_FALLBACK_DISCOVERY_CRAWL`. -/
def MAX_PAGES_FOR_FALLBACK_DISCOVERY_CRAWL : Nat := 30

/-- Model of the sitemap title backfill
(`fetch_titles_for_urls` plus the write-back loop at its call site):
sitemap-found entries still titled `"N/A"`, capped at 200, same-host
only; a successful HTML fetch rewrites title and status.  The source
fans the fetches out over a small thread pool, but each write targets a
distinct URL key, so the sequential fold is observationally the same. -/
def backfillStep (net : Net) (base : String) (mp : PageMap) (u : String) : PageMap :=
  if !(netloc u == netloc base) then mp
  else match fetchHtmlOk net u with
    | some html => assocUpdate mp u (fun e =>
        { e with title := getPageTitleFromHtml html, status := "sitemap_title_fetched" })
    | none => mp

/-- The title-backfill pass over the sitemap-found entries. -/
def backfillTitles (net : Net) (base : String) (m : PageMap) : PageMap :=
  let urls_needing := (m.filter
    (fun p => p.2.status == "sitemap_found" && p.2.title == "N/A")).map Prod.fst
  (urls_needing.take MAX_URLS_FROM_SITEMAP_TO_PROCESS_TITLES).foldl (backfillStep net base) m

/-- Merge of the fallback crawl output into the aggregate (lines
609–613): unknown URLs are inserted; known URLs adopt a non-null
`html_source` (and a real title) when their own is missing. -/
def mergeStep (mp : PageMap) (p : PageRec) : PageMap :=
  match mp.lookup p.url with
  | none => mp ++ [(p.url, p)]
  | some ex =>
    if p.html_source.isSome && ex.html_source.isNone then
      assocUpdate mp p.url (fun e =>
        { e with html_source := p.html_source,
                 title := if !(p.title == "N/A") then p.title else e.title })
    else mp

/-- Merge of the fallback crawl output into the aggregate. -/
def mergeFallback (m : PageMap) (pages : List PageRec) : PageMap :=
  pages.foldl mergeStep m

/-- The aggregate before any fallback crawl: seed, sitemap ingestion,
probe, title backfill. -/
def aggregatePreFallback (net : Net) (base tl : String) (smAcc : List String) : PageMap :=
  backfillTitles net base
    (probe_core_pages net base tl (ingestSitemapUrls (seedMap net base) smAcc))

/-- The discovery phase after sitemap resolution: when fewer than
`MIN_DISCOVERED_PAGES_BEFORE_FALLBACK_CRAWL` pages are known, the
selected fallback crawl variant runs and is merged in.  `none` only
when a fuelled crawl loop ran out of fuel. -/
def aggregateAfterSitemap (net : Net) (base tl : String) (useSelenium : Bool) (fuel : Nat)
    (smAcc : List String) : Option PageMap :=
  if (aggregatePreFallback net base tl smAcc).length <
      MIN_DISCOVERED_PAGES_BEFORE_FALLBACK_CRAWL then
    (if useSelenium then
        selenium_crawl_website net base MAX_PAGES_FOR_FALLBACK_DISCOVERY_CRAWL fuel
      else
        simple_crawl_website net base MAX_PAGES_FOR_FALLBACK_DISCOVERY_CRAWL fuel).map
      (mergeFallback (aggregatePreFallback net base tl smAcc))
  else some (aggregatePreFallback net base tl smAcc)

/-- The full discovery phase of `run_knowledge_base_job` (lines
572–615): seed fetch, sitemap resolution feeding the aggregate,
core-page probing, title backfill, and the conditional fallback
crawl. -/
def discovery_aggregate (net : Net) (base tl : String) (useSelenium : Bool) (fuel : Nat) :
    Option PageMap :=
  match find_sitemap_urls net base fuel with
  | none => none
  | some smRes => aggregateAfterSitemap net base tl useSelenium fuel smRes.acc

/-- A network whose sitemap lists the same page twice, once with a
query string — two distinct raw URLs with equal normalised forms. -/
def dupNet : Net :=
  [ ("https://example.test/sitemap.xml",
     some ⟨200, "application/xml",
       "<urlset><url><loc>https://example.test/a</loc></url><url><loc>https://example.test/a?x=1</loc></url></urlset>"⟩) ]

/-! ## Job pipeline terminal logic (`run_knowledge_base_job`, lines 618–699)

The AI collaborators are oracle parameters per §6 of the spec: page
selection is a function from the offered pages to a chosen subset,
per-page extraction is a function returning `none` exactly when the
source would record a per-page failure (missing/unfetchable HTML, or an
exception from the extraction call — all caught in the per-page
`try/except`), and compilation returns a result string (§4.6: even a
degraded placeholder string counts as success at this layer).  The
final record mirrors the terminal update at lines 693–698: on every
handled failure path the human-readable message is stored in *both*
`error` (line 696) and `final_knowledge_base` (line 697). -/

/-- One extracted knowledge chunk. -/
structure KChunk where
  url : String
  title_suggestion : String
  extracted_chunk : String
deriving DecidableEq

/-- The terminal fields of a job record. -/
structure JobFinal where
  status : String
  error : Option String
  final_knowledge_base : Option String
deriving DecidableEq

/-- The extraction loop (lines 640–673): per-page oracle failures are
skipped, successes are appended in order. -/
def extractChunks (extractOracle : String → Option KChunk) (selected : List String) :
    List KChunk :=
  selected.foldl (fun acc p =>
    match extractOracle p with
    | some c => acc ++ [c]
    | none => acc) []

/-- The pipeline tail of `run_knowledge_base_job`: discovery-empty,
selection-empty and zero-extraction checks each fail the job with a
message stored in both terminal fields; otherwise the compiled text
completes it. -/
def run_job_pipeline (target_language : String) (discovered : List (String × String))
    (selectOracle : List (String × String) → List String)
    (extractOracle : String → Option KChunk)
    (compileFn : List KChunk → String) : JobFinal :=
  if discovered.isEmpty then
    { status := "failed",
      error := some "Could not generate KB: Discovery phase found no pages.",
      final_knowledge_base := some "Could not generate KB: Discovery phase found no pages." }
  else if (selectOracle discovered).isEmpty then
    { status := "failed",
      error := some ("Could not generate KB (in " ++ target_language ++
        "): AI selected no relevant pages."),
      final_knowledge_base := some ("Could not generate KB (in " ++ target_language ++
        "): AI selected no relevant pages.") }
  else if (extractChunks extractOracle (selectOracle discovered)).isEmpty then
    { status := "failed",
      error := some ("Could not generate KB (in " ++ target_language ++
        "): Failed to extract from any pages."),
      final_knowledge_base := some ("Could not generate KB (in " ++ target_language ++
        "): Failed to extract from any pages.") }
  else
    { status := "completed", error := none,
      final_knowledge_base :=
        some (compileFn (extractChunks extractOracle (selectOracle discovered))) }

/-! ## Job status read surface (`get_knowledge_base_job_status`) -/

/-- The two job-record fields the payload-shaping logic reads. -/
structure JobRecord where
  status : String
  final_knowledge_base : Option String
deriving DecidableEq

/-- The shaped response fields. -/
structure JobStatusView where
  status : String
  final_knowledge_base : Option String
  final_knowledge_base_preview : Option String
deriving DecidableEq

/-- The truncation suffix appended to the preview. -/
def KB_PREVIEW_SUFFIX : String := "\n... (KB content truncated in status preview)"

/-- Model of the payload shaping in `get_knowledge_base_job_status`
(lines 734–738): when a final payload is present and longer than 1000
characters, a 1000-character preview is added and — only when the
status is not `completed` — the full payload is removed from the copy.
Payloads of at most 1000 characters (and absent ones) pass through
untouched, whatever the status. -/
def get_knowledge_base_job_status (j : JobRecord) : JobStatusView :=
  match j.final_knowledge_base with
  | some kb =>
    if strLength kb > 1000 then
      { status := j.status,
        final_knowledge_base := if j.status = "completed" then some kb else none,
        final_knowledge_base_preview := some (strTake kb 1000 ++ KB_PREVIEW_SUFFIX) }
    else
      { status := j.status, final_knowledge_base := some kb,
        final_knowledge_base_preview := none }
  | none =>
    { status := j.status, final_knowledge_base := none,
      final_knowledge_base_preview := none }

/-! ## Page-selection clamping (`start_knowledge_base_generation`,
`select_relevant_pages_for_kb_with_openai`)

`max_pages` arrives from the request as a Python `int`, which may be
negative, so the limit arithmetic is modelled over `Int` and list
truncation follows Python slice semantics (`l[:n]` with negative `n`
drops elements from the end). -/

/-- `MAX_PAGES_FOR_KB_GENERATION`. -/
def MAX_PAGES_FOR_KB_GENERATION : Int := 15

/-- Python `min` on ints. -/
def pyMin (a b : Int) : Int := if a ≤ b then a else b

/-- Python `l[:n]`: for `n ≥ 0` the first `n` elements, for `n < 0`
everything but the last `-n` elements. -/
def pySliceTo {α : Type} (l : List α) (n : Int) : List α :=
  if 0 ≤ n then l.take n.toNat else l.take (l.length - (-n).toNat)

/-- One item of the model's AI selection response: `none` stands for a
malformed array element (not a dict, or missing "url"), which the
source logs and skips. -/
structure AiSelItem where
  url : String
  reason : String
deriving DecidableEq

/-- A validated selected page as the source assembles it. -/
structure SelectedPage where
  url : String
  title : String
  reason : String
deriving DecidableEq

/-- The post-response validation of
`select_relevant_pages_for_kb_with_openai` (lines 463–476): items whose
URL is not in the provided list are discarded, titles are looked up
from the provided details, and the result is truncated with
`[:max_pages_to_select]`. -/
def select_relevant_pages_for_kb (page_details : List (String × String))
    (aiItems : List (Option AiSelItem)) (maxSel : Int) : List SelectedPage :=
  pySliceTo
    (aiItems.foldl (fun acc it =>
      match it with
      | some item =>
        if (page_details.map Prod.fst).contains item.url then
          acc ++ [⟨item.url,
            (((page_details.find? (fun p => p.1 == item.url)).map Prod.snd).getD "N/A"),
            item.reason⟩]
        else acc
      | none => acc) [])
    maxSel

/-- The endpoint clamp (line 709):
`min(max_pages_input, MAX_PAGES_FOR_KB_GENERATION)`. -/
def effective_max_pages (max_pages_input : Int) : Int :=
  pyMin max_pages_input MAX_PAGES_FOR_KB_GENERATION

/-- The orchestrator's selection limit (line 623):
`min(max_pages_for_kb_processing, MAX_PAGES_FOR_KB_GENERATION)` applied
to the already-clamped request value. -/
def ai_selection_limit (max_pages_input : Int) : Int :=
  pyMin (effective_max_pages max_pages_input) MAX_PAGES_FOR_KB_GENERATION

/-- The number of pages the selection step hands to extraction for a
request with the given `max_pages`. -/
def pages_selected_count (max_pages_input : Int) (page_details : List (String × String))
    (aiItems : List (Option AiSelItem)) : Nat :=
  (select_relevant_pages_for_kb page_details aiItems (ai_selection_limit max_pages_input)).length

/-! ## Proofs -/

/-! ## Generic list lemmas -/

/-- `List.contains` agrees with membership for strings. -/
theorem contains_iff_mem_str (l : List String) (a : String) : l.contains a = true ↔ a ∈ l :=
  List.elem_iff

/-- A successful association-list lookup locates a member pair. -/
theorem lookup_mem {β : Type} (net : List (String × β)) (u : String) (v : β)
    (h : net.lookup u = some v) : (u, v) ∈ net := by
  induction net with
  | nil => simp [List.lookup] at h
  | cons p t ih =>
    rcases p with ⟨k, w⟩
    by_cases hk : u = k
    · subst hk
      simp [List.lookup] at h
      simp [h]
    · simp [List.lookup, (by simpa using hk : (u == k) = false)] at h
      exact List.mem_cons_of_mem _ (ih h)

/-- Filtering with a stronger predicate yields at most as many elements. -/
theorem length_filter_mono {α : Type} (p q : α → Bool) (l : List α)
    (h : ∀ x, q x = true → p x = true) :
    (l.filter q).length ≤ (l.filter p).length := by
  induction l with
  | nil => simp
  | cons a t ih =>
    by_cases hq : q a = true
    · simp [List.filter_cons, hq, h a hq]; omega
    · simp only [List.filter_cons, Bool.not_eq_true] at *
      rcases hp : p a <;> simp [hq, hp] <;> omega

/-- Filtering with a strictly stronger predicate that loses a present
element yields strictly fewer elements. -/
theorem length_filter_strict {α : Type} (p q : α → Bool) (l : List α) (e : α)
    (he : e ∈ l) (hpe : p e = true) (hqe : q e = false)
    (h : ∀ x, q x = true → p x = true) :
    (l.filter q).length < (l.filter p).length := by
  induction l with
  | nil => simp at he
  | cons a t ih =>
    rcases List.mem_cons.mp he with rfl | hmem
    · have h1 := length_filter_mono p q t h
      simp [List.filter_cons, hpe, hqe]; omega
    · by_cases hq : q a = true
      · have := ih hmem
        simp [List.filter_cons, hq, h a hq]; omega
      · have := ih hmem
        simp only [Bool.not_eq_true] at hq
        rcases hp : p a <;> simp [List.filter_cons, hq, hp] <;> omega

/-- Extending the seen-set by `ext` fresh members of `l` removes at
least `ext.length` elements from the unseen filter. -/
theorem filter_ext_measure (l : List String) :
    ∀ (ext P : List String), ext.Nodup → (∀ e ∈ ext, e ∈ l ∧ e ∉ P) →
      (l.filter (fun x => !((P ++ ext).contains x))).length + ext.length ≤
        (l.filter (fun x => !(P.contains x))).length := by
  intro ext
  induction ext with
  | nil => intro P _ _; simp
  | cons e ext ih =>
    intro P hnd hmem
    have hassoc : P ++ e :: ext = (P ++ [e]) ++ ext := by simp
    have hIH := ih (P ++ [e]) (List.Nodup.of_cons hnd)
      (by
        intro x hx
        refine ⟨(hmem x (List.mem_cons_of_mem _ hx)).1, ?_⟩
        intro hxin
        rcases List.mem_append.mp hxin with hxP | hxe
        · exact (hmem x (List.mem_cons_of_mem _ hx)).2 hxP
        · rcases List.mem_singleton.mp hxe with rfl
          exact (List.nodup_cons.mp hnd).1 hx)
    have hstrict : (l.filter (fun x => !((P ++ [e]).contains x))).length <
        (l.filter (fun x => !(P.contains x))).length := by
      refine length_filter_strict _ _ l e (hmem e (List.mem_cons_self e ext)).1 ?_ ?_ ?_
      · have hce : P.contains e = false := Bool.eq_false_iff.mpr
          (fun hc => (hmem e (List.mem_cons_self e ext)).2 ((contains_iff_mem_str P e).mp hc))
        simp [hce]
        exact (hmem e (List.mem_cons_self e ext)).2
      · have hce : (P ++ [e]).contains e = true :=
          (contains_iff_mem_str (P ++ [e]) e).mpr (by simp)
        simp [hce]
      · intro x hx
        have hnot : x ∉ P ++ [e] := by
          intro hc
          rw [(contains_iff_mem_str (P ++ [e]) x).mpr hc] at hx
          simp at hx
        have hxP : x ∉ P := fun hc => hnot (by simp [hc])
        have hcx : P.contains x = false := Bool.eq_false_iff.mpr
          (fun hc => hxP ((contains_iff_mem_str P x).mp hc))
        simp [hcx]
        exact hxP
    rw [hassoc]
    simp only [List.length_cons]
    omega

/-! ## Sitemap loop lemmas -/

/-- A set-insert keeps old members. -/
theorem insertUnique_sub (l : List String) (u : String) : l ⊆ insertUnique l u := by
  intro a ha
  unfold insertUnique
  split <;> simp [ha]

/-- A set-insert contains the inserted element. -/
theorem mem_insertUnique (l : List String) (u : String) : u ∈ insertUnique l u := by
  unfold insertUnique
  split <;> simp [*]

/-- Full specification of folding the XML-branch step over a `<loc>`
list: the queue and the seen-set are extended by one and the same block
`ext` of fresh nested-sitemap URLs, the trace is untouched, the result
set only grows, every nested sitemap in the list ends up seen, and
every page URL in the list ends up in the result set. -/
theorem xmlFold_spec (base : String) (locs : List String) :
    ∀ s : SmState, ∃ ext : List String,
      (locs.foldl (sitemapXmlStep base) s).queue = s.queue ++ ext ∧
      (locs.foldl (sitemapXmlStep base) s).processed = s.processed ++ ext ∧
      (locs.foldl (sitemapXmlStep base) s).trace = s.trace ∧
      ext.Nodup ∧
      (∀ e ∈ ext, e ∈ locs ∧ strEndsWith e ".xml" = true ∧ e ∉ s.processed) ∧
      s.acc ⊆ (locs.foldl (sitemapXmlStep base) s).acc ∧
      (∀ e ∈ locs, strEndsWith e ".xml" = true →
        e ∈ (locs.foldl (sitemapXmlStep base) s).processed) ∧
      (∀ e ∈ locs, (!strEndsWith e ".xml" && netloc e == netloc base) = true →
        e ∈ (locs.foldl (sitemapXmlStep base) s).acc) := by
  induction locs with
  | nil =>
    intro s
    exact ⟨[], by simp, by simp, rfl, List.nodup_nil, by simp, by simp, by simp, by simp⟩
  | cons e rest ih =>
    intro s
    rw [List.foldl_cons]
    by_cases hxml : strEndsWith e ".xml" = true
    · by_cases hproc : e ∈ s.processed
      · have hstep : sitemapXmlStep base s e = s := by
          simp [sitemapXmlStep, hxml, hproc]
        rw [hstep]
        obtain ⟨ext, hq, hp, ht, hnd, hext, hacc, hpr, hpg⟩ := ih s
        refine ⟨ext, hq, hp, ht, hnd, ?_, hacc, ?_, ?_⟩
        · intro x hx
          obtain ⟨h1, h2, h3⟩ := hext x hx
          exact ⟨List.mem_cons_of_mem _ h1, h2, h3⟩
        · intro x hx hx2
          rcases List.mem_cons.mp hx with rfl | hxr
          · rw [hp]; exact List.mem_append.mpr (Or.inl hproc)
          · exact hpr x hxr hx2
        · intro x hx hx2
          rcases List.mem_cons.mp hx with rfl | hxr
          · rw [hxml] at hx2; simp at hx2
          · exact hpg x hxr hx2
      · have hstep : sitemapXmlStep base s e =
            { s with queue := s.queue ++ [e], processed := s.processed ++ [e] } := by
          simp [sitemapXmlStep, hxml, hproc]
        rw [hstep]
        obtain ⟨ext, hq, hp, ht, hnd, hext, hacc, hpr, hpg⟩ :=
          ih { s with queue := s.queue ++ [e], processed := s.processed ++ [e] }
        refine ⟨e :: ext, ?_, ?_, ht, ?_, ?_, hacc, ?_, ?_⟩
        · rw [hq]; simp
        · rw [hp]; simp
        · refine List.nodup_cons.mpr ⟨?_, hnd⟩
          intro hc
          have := (hext e hc).2.2
          simp at this
        · intro x hx
          rcases List.mem_cons.mp hx with rfl | hxr
          · exact ⟨List.mem_cons_self _ _, hxml, hproc⟩
          · obtain ⟨h1, h2, h3⟩ := hext x hxr
            refine ⟨List.mem_cons_of_mem _ h1, h2, ?_⟩
            intro hc
            exact h3 (by simp [hc])
        · intro x hx hx2
          rcases List.mem_cons.mp hx with rfl | hxr
          · rw [hp]; simp
          · exact hpr x hxr hx2
        · intro x hx hx2
          rcases List.mem_cons.mp hx with rfl | hxr
          · rw [hxml] at hx2; simp at hx2
          · exact hpg x hxr hx2
    · have hxmlf : strEndsWith e ".xml" = false := by
        simpa using hxml
      by_cases hnet : (netloc e == netloc base) = true
      · have hstep : sitemapXmlStep base s e = { s with acc := insertUnique s.acc e } := by
          simp [sitemapXmlStep, hxmlf, hnet]
        rw [hstep]
        obtain ⟨ext, hq, hp, ht, hnd, hext, hacc, hpr, hpg⟩ :=
          ih { s with acc := insertUnique s.acc e }
        refine ⟨ext, hq, hp, ht, hnd, ?_, ?_, ?_, ?_⟩
        · intro x hx
          obtain ⟨h1, h2, h3⟩ := hext x hx
          exact ⟨List.mem_cons_of_mem _ h1, h2, h3⟩
        · exact fun a ha => hacc (insertUnique_sub s.acc e ha)
        · intro x hx hx2
          rcases List.mem_cons.mp hx with rfl | hxr
          · rw [hx2] at hxmlf; simp at hxmlf
          · exact hpr x hxr hx2
        · intro x hx hx2
          rcases List.mem_cons.mp hx with rfl | hxr
          · exact hacc (mem_insertUnique s.acc x)
          · exact hpg x hxr hx2
      · have hstep : sitemapXmlStep base s e = s := by
          simp [sitemapXmlStep, hxmlf]
          intro h
          simp [h] at hnet
        rw [hstep]
        obtain ⟨ext, hq, hp, ht, hnd, hext, hacc, hpr, hpg⟩ := ih s
        refine ⟨ext, hq, hp, ht, hnd, ?_, hacc, ?_, ?_⟩
        · intro x hx
          obtain ⟨h1, h2, h3⟩ := hext x hx
          exact ⟨List.mem_cons_of_mem _ h1, h2, h3⟩
        · intro x hx hx2
          rcases List.mem_cons.mp hx with rfl | hxr
          · rw [hx2] at hxmlf; simp at hxmlf
          · exact hpr x hxr hx2
        · intro x hx hx2
          rcases List.mem_cons.mp hx with rfl | hxr
          · simp [hxmlf] at hx2
            simp [hx2] at hnet
          · exact hpg x hxr hx2

/-- Specification of folding the plain-text-branch step over a line
list: only the result set changes, growing by every qualifying line. -/
theorem txtFold_spec (base : String) (lines : List String) :
    ∀ s : SmState,
      (lines.foldl (sitemapTxtStep base) s).queue = s.queue ∧
      (lines.foldl (sitemapTxtStep base) s).processed = s.processed ∧
      (lines.foldl (sitemapTxtStep base) s).trace = s.trace ∧
      s.acc ⊆ (lines.foldl (sitemapTxtStep base) s).acc ∧
      (∀ line ∈ lines,
        (strStartsWith (strTrim line) "http" && netloc (strTrim line) == netloc base) = true →
        strTrim line ∈ (lines.foldl (sitemapTxtStep base) s).acc) := by
  induction lines with
  | nil => intro s; exact ⟨rfl, rfl, rfl, by simp, by simp⟩
  | cons line rest ih =>
    intro s
    rw [List.foldl_cons]
    by_cases hc : (strStartsWith (strTrim line) "http" &&
        netloc (strTrim line) == netloc base) = true
    · have hstep : sitemapTxtStep base s line =
          { s with acc := insertUnique s.acc (strTrim line) } := by
        simp only [sitemapTxtStep]
        rw [hc]
        simp
      rw [hstep]
      obtain ⟨h1, h2, h3, h4, h5⟩ := ih { s with acc := insertUnique s.acc (strTrim line) }
      refine ⟨h1, h2, h3, ?_, ?_⟩
      · exact fun a ha => h4 (insertUnique_sub s.acc _ ha)
      · intro x hx hx2
        rcases List.mem_cons.mp hx with rfl | hxr
        · exact h4 (mem_insertUnique s.acc _)
        · exact h5 x hxr hx2
    · have hstep : sitemapTxtStep base s line = s := by
        simp only [sitemapTxtStep]
        rw [Bool.eq_false_iff.mpr hc]
        simp
      rw [hstep]
      obtain ⟨h1, h2, h3, h4, h5⟩ := ih s
      refine ⟨h1, h2, h3, h4, ?_⟩
      intro x hx hx2
      rcases List.mem_cons.mp hx with rfl | hxr
      · exact absurd hx2 hc
      · exact h5 x hxr hx2

/-- Full specification of processing one dequeued sitemap URL. -/
theorem processSitemap_spec (net : Net) (base : String) (s : SmState) (u : String) :
    ∃ ext : List String,
      (processSitemap net base s u).queue = s.queue ++ ext ∧
      (processSitemap net base s u).processed = s.processed ++ ext ∧
      (processSitemap net base s u).trace = s.trace ∧
      ext.Nodup ∧
      (∀ e ∈ ext, e ∈ sitemapLocsOf net u ∧ e ∉ s.processed) ∧
      s.acc ⊆ (processSitemap net base s u).acc ∧
      (∀ v ∈ sitemapLocsOf net u, v ∈ (processSitemap net base s u).processed) ∧
      (∀ p ∈ pagesOf net base u, p ∈ (processSitemap net base s u).acc) := by
  cases hfetch : fetchNet net u with
  | none =>
    have h1 : processSitemap net base s u = s := by unfold processSitemap; rw [hfetch]
    have h2 : sitemapLocsOf net u = [] := by unfold sitemapLocsOf; rw [hfetch]
    have h3 : pagesOf net base u = [] := by unfold pagesOf; rw [hfetch]
    rw [h1, h2, h3]
    exact ⟨[], by simp, by simp, rfl, List.nodup_nil, by simp, by simp, by simp, by simp⟩
  | some r =>
    by_cases hst : (r.status == 200) = true
    · by_cases hxmlb : sitemapBranchIsXml r u = true
      · have h1 : processSitemap net base s u =
            (extractLocs r.body).foldl (sitemapXmlStep base) s := by
          unfold processSitemap; rw [hfetch]; simp [hst, hxmlb]
        have h2 : sitemapLocsOf net u =
            (extractLocs r.body).filter (fun e => strEndsWith e ".xml") := by
          unfold sitemapLocsOf; rw [hfetch]; simp [hst, hxmlb]
        have h3 : pagesOf net base u =
            (extractLocs r.body).filter
              (fun e => !strEndsWith e ".xml" && netloc e == netloc base) := by
          unfold pagesOf; rw [hfetch]; simp [hst, hxmlb]
        rw [h1, h2, h3]
        obtain ⟨ext, hq, hp, ht, hnd, hext, hacc, hpr, hpg⟩ :=
          xmlFold_spec base (extractLocs r.body) s
        refine ⟨ext, hq, hp, ht, hnd, ?_, hacc, ?_, ?_⟩
        · intro e he
          obtain ⟨ha, hb, hc⟩ := hext e he
          exact ⟨List.mem_filter.mpr ⟨ha, hb⟩, hc⟩
        · intro v hv
          have hv2 := List.mem_filter.mp hv
          exact hpr v hv2.1 hv2.2
        · intro p hp2
          have hp3 := List.mem_filter.mp hp2
          exact hpg p hp3.1 hp3.2
      · have hxmlf : sitemapBranchIsXml r u = false := Bool.eq_false_iff.mpr hxmlb
        have h2 : sitemapLocsOf net u = [] := by
          unfold sitemapLocsOf; rw [hfetch]; simp [hxmlf]
        by_cases htxt : sitemapBranchIsTxt r u = true
        · have h1 : processSitemap net base s u =
              (splitLines r.body).foldl (sitemapTxtStep base) s := by
            unfold processSitemap; rw [hfetch]; simp [hst, hxmlf, htxt]
          have h3 : pagesOf net base u =
              (splitLines r.body).filterMap (fun line =>
                let v := strTrim line
                if (strStartsWith v "http" && netloc v == netloc base) = true
                then some v else none) := by
            unfold pagesOf; rw [hfetch]; simp [hst, hxmlf, htxt]
          rw [h1, h2, h3]
          obtain ⟨hq, hp, ht, hacc, hln⟩ := txtFold_spec base (splitLines r.body) s
          refine ⟨[], by simp [hq], by simp [hp], ht, List.nodup_nil, by simp, hacc, by simp, ?_⟩
          intro p hp2
          rw [List.mem_filterMap] at hp2
          obtain ⟨line, hline, hsome⟩ := hp2
          by_cases hcond : (strStartsWith (strTrim line) "http" &&
              netloc (strTrim line) == netloc base) = true
          · simp only [hcond, if_true] at hsome
            have hpe : p = strTrim line := by
              cases hsome
              rfl
            rw [hpe]
            exact hln line hline hcond
          · simp only [Bool.eq_false_iff.mpr hcond] at hsome
            simp at hsome
        · have htxtf : sitemapBranchIsTxt r u = false := Bool.eq_false_iff.mpr htxt
          have h1 : processSitemap net base s u = s := by
            unfold processSitemap; rw [hfetch]; simp [hst, hxmlf, htxtf]
          have h3 : pagesOf net base u = [] := by
            unfold pagesOf; rw [hfetch]; simp [hst, hxmlf, htxtf]
          rw [h1, h2, h3]
          exact ⟨[], by simp, by simp, rfl, List.nodup_nil, by simp, by simp, by simp, by simp⟩
    · have hstf : (r.status == 200) = false := Bool.eq_false_iff.mpr hst
      have h1 : processSitemap net base s u = s := by
        unfold processSitemap; rw [hfetch]; simp [hstf]
      have h2 : sitemapLocsOf net u = [] := by
        unfold sitemapLocsOf; rw [hfetch]; simp [hstf]
      have h3 : pagesOf net base u = [] := by
        unfold pagesOf; rw [hfetch]; simp [hstf]
      rw [h1, h2, h3]
      exact ⟨[], by simp, by simp, rfl, List.nodup_nil, by simp, by simp, by simp, by simp⟩

/-- Every nested-sitemap URL extracted from a live response occurs in
the finite universe `netXmlUrls net`. -/
theorem sitemapLocsOf_sub_netXmlUrls (net : Net) (u : String) :
    ∀ e ∈ sitemapLocsOf net u, e ∈ netXmlUrls net := by
  intro e he
  unfold sitemapLocsOf at he
  cases hfetch : fetchNet net u with
  | none => rw [hfetch] at he; simp at he
  | some r =>
    rw [hfetch] at he
    by_cases hc : (r.status == 200 && sitemapBranchIsXml r u) = true
    · replace he : e ∈ List.filter (fun e => strEndsWith e ".xml") (extractLocs r.body) := by
        simpa [hc] using he
      have hmem : (u, some r) ∈ net := by
        unfold fetchNet at hfetch
        cases hl : net.lookup u with
        | none => rw [hl] at hfetch; simp at hfetch
        | some v =>
          rw [hl] at hfetch
          simp at hfetch
          rw [hfetch] at hl
          exact lookup_mem net u (some r) hl
      clear hfetch hc
      induction net with
      | nil => simp at hmem
      | cons p t ih =>
        unfold netXmlUrls
        rcases List.mem_cons.mp hmem with rfl | hmem2
        · simp only [List.foldr_cons]
          exact List.mem_append.mpr (Or.inl he)
        · simp only [List.foldr_cons]
          have := ih hmem2
          unfold netXmlUrls at this
          cases p.2 with
          | none => simpa using this
          | some r2 => exact List.mem_append.mpr (Or.inr this)
    · simp [Bool.eq_false_iff.mpr hc] at he

/-- Processing one sitemap URL never increases the termination
measure. -/
theorem muSm_processSitemap (net : Net) (base : String) (s : SmState) (u : String) :
    muSm net (processSitemap net base s u) ≤ muSm net s := by
  obtain ⟨ext, hq, hp, _, hnd, hext, _, _, _⟩ := processSitemap_spec net base s u
  unfold muSm
  rw [hq, hp]
  have hmeas := filter_ext_measure (netXmlUrls net) ext s.processed hnd
    (fun e he => ⟨sitemapLocsOf_sub_netXmlUrls net u e (hext e he).1, (hext e he).2⟩)
  simp only [List.length_append]
  omega

/-- With fuel at least the measure, the sitemap loop drains its queue. -/
theorem sitemapLoop_some_of_fuel (net : Net) (base : String) :
    ∀ (fuel : Nat) (s : SmState), muSm net s ≤ fuel →
      ∃ res, sitemapLoop net base fuel s = some res := by
  intro fuel
  induction fuel with
  | zero =>
    intro s hs
    unfold muSm at hs
    have hq : s.queue.length = 0 := by omega
    rw [List.length_eq_zero] at hq
    exact ⟨s, by unfold sitemapLoop; rw [hq]⟩
  | succ f ih =>
    intro s hs
    cases hq : s.queue with
    | nil => exact ⟨s, by unfold sitemapLoop; rw [hq]⟩
    | cons u rest =>
      have hmid : muSm net { s with queue := rest, trace := s.trace ++ [u] } + 1 = muSm net s := by
        unfold muSm
        rw [hq]
        simp only [List.length_cons]
        omega
      have hle : muSm net (processSitemap net base
          { s with queue := rest, trace := s.trace ++ [u] } u) ≤ f := by
        have := muSm_processSitemap net base { s with queue := rest, trace := s.trace ++ [u] } u
        omega
      obtain ⟨res, hres⟩ := ih _ hle
      refine ⟨res, ?_⟩
      unfold sitemapLoop
      rw [hq]
      exact hres

/-- The result set only grows along the loop. -/
theorem sitemapLoop_acc_mono (net : Net) (base : String) :
    ∀ (fuel : Nat) (s res : SmState), sitemapLoop net base fuel s = some res →
      s.acc ⊆ res.acc := by
  intro fuel
  induction fuel with
  | zero =>
    intro s res h
    unfold sitemapLoop at h
    cases hq : s.queue with
    | nil => rw [hq] at h; simp at h; rw [h]; exact List.Subset.refl _
    | cons u rest => rw [hq] at h; simp at h
  | succ f ih =>
    intro s res h
    unfold sitemapLoop at h
    cases hq : s.queue with
    | nil => rw [hq] at h; simp at h; rw [h]; exact List.Subset.refl _
    | cons u rest =>
      rw [hq] at h
      have hmono := (processSitemap_spec net base
        { s with queue := rest, trace := s.trace ++ [u] } u).choose_spec.2.2.2.2.2.1
      exact fun a ha => ih _ _ h (hmono ha)

/-- The seen-set only grows along the loop. -/
theorem sitemapLoop_processed_mono (net : Net) (base : String) :
    ∀ (fuel : Nat) (s res : SmState), sitemapLoop net base fuel s = some res →
      s.processed ⊆ res.processed := by
  intro fuel
  induction fuel with
  | zero =>
    intro s res h
    unfold sitemapLoop at h
    cases hq : s.queue with
    | nil => rw [hq] at h; simp at h; rw [h]; exact List.Subset.refl _
    | cons u rest => rw [hq] at h; simp at h
  | succ f ih =>
    intro s res h
    unfold sitemapLoop at h
    cases hq : s.queue with
    | nil => rw [hq] at h; simp at h; rw [h]; exact List.Subset.refl _
    | cons u rest =>
      rw [hq] at h
      obtain ⟨ext, _, hp, _, _, _, _, _, _⟩ := processSitemap_spec net base
        { s with queue := rest, trace := s.trace ++ [u] } u
      intro a ha
      refine ih _ _ h ?_
      rw [hp]
      exact List.mem_append.mpr (Or.inl ha)

/-- One loop step preserves `SmInv`. -/
theorem smInv_step (net : Net) (base : String) (s : SmState) (u : String) (rest : List String)
    (hq : s.queue = u :: rest) (hInv : SmInv net base s) :
    SmInv net base (processSitemap net base { s with queue := rest, trace := s.trace ++ [u] } u) := by
  obtain ⟨ext, hq2, hp2, _, _, _, hacc, _, hpg⟩ :=
    processSitemap_spec net base { s with queue := rest, trace := s.trace ++ [u] } u
  intro w hw
  rw [hp2] at hw
  simp only at hw hq2 hp2
  rcases List.mem_append.mp hw with hwold | hwext
  · rcases hInv w hwold with hdone | hqueue
    · exact Or.inl (fun p hp => hacc (hdone p hp))
    · rw [hq] at hqueue
      rcases List.mem_cons.mp hqueue with rfl | hwrest
      · exact Or.inl (fun p hp => hpg p hp)
      · refine Or.inr ?_
        rw [hq2]
        exact List.mem_append.mpr (Or.inl hwrest)
  · refine Or.inr ?_
    rw [hq2]
    exact List.mem_append.mpr (Or.inr hwext)

/-- Master invariant lemma: when the loop finishes, every sitemap URL
that was ever seen has its page URLs in the final result set. -/
theorem sitemapLoop_inv (net : Net) (base : String) :
    ∀ (fuel : Nat) (s res : SmState), SmInv net base s →
      sitemapLoop net base fuel s = some res →
      ∀ w ∈ s.processed, ∀ p ∈ pagesOf net base w, p ∈ res.acc := by
  intro fuel
  induction fuel with
  | zero =>
    intro s res hInv h w hw p hp
    unfold sitemapLoop at h
    cases hq : s.queue with
    | nil =>
      rw [hq] at h
      simp at h
      rcases hInv w hw with hdone | hqueue
      · rw [← h]; exact hdone p hp
      · rw [hq] at hqueue; simp at hqueue
    | cons u rest => rw [hq] at h; simp at h
  | succ f ih =>
    intro s res hInv h w hw p hp
    unfold sitemapLoop at h
    cases hq : s.queue with
    | nil =>
      rw [hq] at h
      simp at h
      rcases hInv w hw with hdone | hqueue
      · rw [← h]; exact hdone p hp
      · rw [hq] at hqueue; simp at hqueue
    | cons u rest =>
      rw [hq] at h
      have hInv2 := smInv_step net base s u rest hq hInv
      obtain ⟨ext, _, hp2, _, _, _, _, _, _⟩ :=
        processSitemap_spec net base { s with queue := rest, trace := s.trace ++ [u] } u
      refine ih _ _ hInv2 h w ?_ p hp
      rw [hp2]
      exact List.mem_append.mpr (Or.inl hw)

/-- If a sitemap URL is queued, its page URLs reach the final result
set. -/
theorem sitemapLoop_queue_pages (net : Net) (base : String) :
    ∀ (fuel : Nat) (s res : SmState), sitemapLoop net base fuel s = some res →
      ∀ u ∈ s.queue, ∀ p ∈ pagesOf net base u, p ∈ res.acc := by
  intro fuel
  induction fuel with
  | zero =>
    intro s res h u hu
    unfold sitemapLoop at h
    cases hq : s.queue with
    | nil => rw [hq] at hu; simp at hu
    | cons v rest => rw [hq] at h; simp at h
  | succ f ih =>
    intro s res h u hu p hp
    unfold sitemapLoop at h
    cases hq : s.queue with
    | nil => rw [hq] at hu; simp at hu
    | cons v rest =>
      rw [hq] at h
      obtain ⟨ext, hq2, _, _, _, _, _, _, hpg⟩ :=
        processSitemap_spec net base { s with queue := rest, trace := s.trace ++ [v] } v
      rw [hq] at hu
      rcases List.mem_cons.mp hu with rfl | hurest
      · exact sitemapLoop_acc_mono net base f _ res h (hpg p hp)
      · refine ih _ _ h u ?_ p hp
        rw [hq2]
        exact List.mem_append.mpr (Or.inl hurest)

/-- If a sitemap URL is queued and lists a nested sitemap, the nested
sitemap's page URLs also reach the final result set. -/
theorem sitemapLoop_nested (net : Net) (base : String) :
    ∀ (fuel : Nat) (s res : SmState), SmInv net base s →
      sitemapLoop net base fuel s = some res →
      ∀ u ∈ s.queue, ∀ v ∈ sitemapLocsOf net u, ∀ p ∈ pagesOf net base v, p ∈ res.acc := by
  intro fuel
  induction fuel with
  | zero =>
    intro s res hInv h u hu
    unfold sitemapLoop at h
    cases hq : s.queue with
    | nil => rw [hq] at hu; simp at hu
    | cons w rest => rw [hq] at h; simp at h
  | succ f ih =>
    intro s res hInv h u hu v hv p hp
    unfold sitemapLoop at h
    cases hq : s.queue with
    | nil => rw [hq] at hu; simp at hu
    | cons w rest =>
      rw [hq] at h
      have hInv2 := smInv_step net base s w rest hq hInv
      obtain ⟨ext, hq2, hp2, _, _, _, _, hnested, _⟩ :=
        processSitemap_spec net base { s with queue := rest, trace := s.trace ++ [w] } w
      rw [hq] at hu
      rcases List.mem_cons.mp hu with rfl | hurest
      · exact sitemapLoop_inv net base f _ res hInv2 h v (hnested v hv) p hp
      · refine ih _ _ hInv2 h u ?_ v hv p hp
        rw [hq2]
        exact List.mem_append.mpr (Or.inl hurest)

/-- One loop step preserves `SmWf`. -/
theorem smWf_step (net : Net) (base : String) (s : SmState) (u : String) (rest : List String)
    (hq : s.queue = u :: rest) (hWf : SmWf s) :
    SmWf (processSitemap net base { s with queue := rest, trace := s.trace ++ [u] } u) := by
  obtain ⟨hqnd, htnd, hdisj, hqp, htp⟩ := hWf
  rw [hq] at hqnd
  have hu_rest : u ∉ rest := (List.nodup_cons.mp hqnd).1
  have hrest_nd : rest.Nodup := (List.nodup_cons.mp hqnd).2
  have hu_q : u ∈ s.queue := by rw [hq]; exact List.mem_cons_self _ _
  have hu_proc : u ∈ s.processed := hqp u hu_q
  have hu_trace : u ∉ s.trace := fun hc => hdisj u hc hu_q
  obtain ⟨ext, hq2, hp2, ht2, hnd2, hext, _, _, _⟩ :=
    processSitemap_spec net base { s with queue := rest, trace := s.trace ++ [u] } u
  simp only at hq2 hp2 ht2 hext
  have hext_fresh : ∀ x ∈ ext, x ∉ s.processed := fun x hx => (hext x hx).2
  refine ⟨?_, ?_, ?_, ?_, ?_⟩
  · rw [hq2]
    rw [List.nodup_append]
    refine ⟨hrest_nd, hnd2, ?_⟩
    intro x hx hxext
    exact hext_fresh x hxext (hqp x (by rw [hq]; exact List.mem_cons_of_mem _ hx))
  · rw [ht2]
    rw [List.nodup_append]
    exact ⟨htnd, List.nodup_singleton u, fun x hx hxu => hu_trace (by
      rcases List.mem_singleton.mp hxu with rfl
      exact hx)⟩
  · intro x hx
    rw [ht2] at hx
    rw [hq2]
    intro hcon
    rcases List.mem_append.mp hcon with hxrest | hxext
    · rcases List.mem_append.mp hx with hxtr | hxu
      · exact hdisj x hxtr (by rw [hq]; exact List.mem_cons_of_mem _ hxrest)
      · rcases List.mem_singleton.mp hxu with rfl
        exact hu_rest hxrest
    · rcases List.mem_append.mp hx with hxtr | hxu
      · exact hext_fresh x hxext (htp x hxtr)
      · rcases List.mem_singleton.mp hxu with rfl
        exact hext_fresh x hxext hu_proc
  · intro x hx
    rw [hq2] at hx
    rw [hp2]
    rcases List.mem_append.mp hx with hxrest | hxext
    · exact List.mem_append.mpr (Or.inl (hqp x (by rw [hq]; exact List.mem_cons_of_mem _ hxrest)))
    · exact List.mem_append.mpr (Or.inr hxext)
  · intro x hx
    rw [ht2] at hx
    rw [hp2]
    rcases List.mem_append.mp hx with hxtr | hxu
    · exact List.mem_append.mpr (Or.inl (htp x hxtr))
    · rcases List.mem_singleton.mp hxu with rfl
      exact List.mem_append.mpr (Or.inl hu_proc)

/-- When the loop finishes from a well-formed state, no sitemap URL was
fetched twice. -/
theorem sitemapLoop_trace_nodup (net : Net) (base : String) :
    ∀ (fuel : Nat) (s res : SmState), SmWf s →
      sitemapLoop net base fuel s = some res → res.trace.Nodup := by
  intro fuel
  induction fuel with
  | zero =>
    intro s res hWf h
    unfold sitemapLoop at h
    cases hq : s.queue with
    | nil => rw [hq] at h; simp at h; rw [← h]; exact hWf.2.1
    | cons u rest => rw [hq] at h; simp at h
  | succ f ih =>
    intro s res hWf h
    unfold sitemapLoop at h
    cases hq : s.queue with
    | nil => rw [hq] at h; simp at h; rw [← h]; exact hWf.2.1
    | cons u rest =>
      rw [hq] at h
      exact ih _ _ (smWf_step net base s u rest hq hWf) h

/-- Folding fresh-only enqueues keeps queue = seen-set, duplicate-free,
with empty trace and result set. -/
theorem enqueueFold_spec (l : List String) :
    ∀ s : SmState, s.queue = s.processed → s.queue.Nodup → s.trace = [] → s.acc = [] →
      (l.foldl enqueueIfNew s).queue = (l.foldl enqueueIfNew s).processed ∧
      (l.foldl enqueueIfNew s).queue.Nodup ∧
      (l.foldl enqueueIfNew s).trace = [] ∧ (l.foldl enqueueIfNew s).acc = [] := by
  induction l with
  | nil => intro s h1 h2 h3 h4; exact ⟨h1, h2, h3, h4⟩
  | cons u rest ih =>
    intro s h1 h2 h3 h4
    rw [List.foldl_cons]
    by_cases hc : u ∈ s.processed
    · have hstep : enqueueIfNew s u = s := by simp [enqueueIfNew, hc]
      rw [hstep]
      exact ih s h1 h2 h3 h4
    · have hstep : enqueueIfNew s u =
          { s with queue := s.queue ++ [u], processed := s.processed ++ [u] } := by
        simp [enqueueIfNew, hc]
      rw [hstep]
      refine ih _ (by simp [h1]) ?_ h3 h4
      simp only
      rw [List.nodup_append]
      refine ⟨h2, List.nodup_singleton u, ?_⟩
      intro x hx hxu
      rcases List.mem_singleton.mp hxu with rfl
      rw [h1] at hx
      exact hc hx

/-- The same fold spec for the common-paths enqueue. -/
theorem enqueueFoldMap_spec (base : String) (l : List String) :
    ∀ s : SmState, s.queue = s.processed → s.queue.Nodup → s.trace = [] → s.acc = [] →
      (l.foldl (fun s p => enqueueIfNew s (urljoinAbs base p)) s).queue =
        (l.foldl (fun s p => enqueueIfNew s (urljoinAbs base p)) s).processed ∧
      (l.foldl (fun s p => enqueueIfNew s (urljoinAbs base p)) s).queue.Nodup ∧
      (l.foldl (fun s p => enqueueIfNew s (urljoinAbs base p)) s).trace = [] ∧
      (l.foldl (fun s p => enqueueIfNew s (urljoinAbs base p)) s).acc = [] := by
  induction l with
  | nil => intro s h1 h2 h3 h4; exact ⟨h1, h2, h3, h4⟩
  | cons u rest ih =>
    intro s h1 h2 h3 h4
    rw [List.foldl_cons]
    by_cases hc : urljoinAbs base u ∈ s.processed
    · have hstep : enqueueIfNew s (urljoinAbs base u) = s := by simp [enqueueIfNew, hc]
      rw [hstep]
      exact ih s h1 h2 h3 h4
    · have hstep : enqueueIfNew s (urljoinAbs base u) =
          { s with queue := s.queue ++ [urljoinAbs base u],
                   processed := s.processed ++ [urljoinAbs base u] } := by
        simp [enqueueIfNew, hc]
      rw [hstep]
      refine ih _ (by simp [h1]) ?_ h3 h4
      simp only
      rw [List.nodup_append]
      refine ⟨h2, List.nodup_singleton _, ?_⟩
      intro x hx hxu
      rcases List.mem_singleton.mp hxu with rfl
      rw [h1] at hx
      exact hc hx

/-- The resolver's initial state is canonical: queue equals seen-set,
duplicate-free, with empty trace and result set. -/
theorem initState_spec (net : Net) (base : String) :
    (initState net base).queue = (initState net base).processed ∧
    (initState net base).queue.Nodup ∧
    (initState net base).trace = [] ∧ (initState net base).acc = [] := by
  unfold initState
  refine enqueueFoldMap_spec base commonSitemapPaths (initRobots net base) ?_ ?_ ?_ ?_
  all_goals
    unfold initRobots
    cases hfetch : fetchNet net (urljoinAbs base "/robots.txt") with
    | none => simp
    | some r =>
      by_cases hst : (r.status == 200) = true
      · simp only [hst, if_true]
        first
        | exact (enqueueFold_spec (robotsSitemapLines r.body) ⟨[], [], [], []⟩
            rfl List.nodup_nil rfl rfl).1
        | exact (enqueueFold_spec (robotsSitemapLines r.body) ⟨[], [], [], []⟩
            rfl List.nodup_nil rfl rfl).2.1
        | exact (enqueueFold_spec (robotsSitemapLines r.body) ⟨[], [], [], []⟩
            rfl List.nodup_nil rfl rfl).2.2.1
        | exact (enqueueFold_spec (robotsSitemapLines r.body) ⟨[], [], [], []⟩
            rfl List.nodup_nil rfl rfl).2.2.2
      · simp [Bool.eq_false_iff.mpr hst]

/-- The initial state satisfies the page-coverage invariant. -/
theorem initState_SmInv (net : Net) (base : String) : SmInv net base (initState net base) := by
  intro w hw
  right
  rw [(initState_spec net base).1]
  exact hw

/-- The initial state is well-formed. -/
theorem initState_SmWf (net : Net) (base : String) : SmWf (initState net base) := by
  obtain ⟨h1, h2, h3, h4⟩ := initState_spec net base
  refine ⟨h2, by rw [h3]; exact List.nodup_nil, ?_, ?_, ?_⟩
  · intro x hx; rw [h3] at hx; simp at hx
  · intro x hx; rw [← h1]; exact hx
  · intro x hx; rw [h3] at hx; simp at hx

/-- The computed fuel dominates the initial measure. -/
theorem muSm_initState_le (net : Net) (base : String) :
    muSm net (initState net base) ≤ suffSitemapFuel net base := by
  unfold muSm suffSitemapFuel
  have := List.length_filter_le (fun x => !((initState net base).processed.contains x))
    (netXmlUrls net)
  omega

/-- C3: for every sitemap graph in which sitemap A's index lists
sitemap B and sitemap B's index lists sitemap A (with A reachable from
the initial robots/conventional candidates), `find_sitemap_urls`
terminates within the computed fuel, no sitemap URL is ever fetched
twice (the seen-set guard), and the result contains the page URLs
listed in both A and B. -/
theorem sitemap_cycle_safety (net : Net) (base A B : String)
    (hA : A ∈ (initState net base).queue)
    (hAB : B ∈ sitemapLocsOf net A) (_hBA : A ∈ sitemapLocsOf net B) :
    ∃ res, find_sitemap_urls net base (suffSitemapFuel net base) = some res ∧
      res.trace.Nodup ∧
      (∀ p ∈ pagesOf net base A, p ∈ res.acc) ∧
      (∀ p ∈ pagesOf net base B, p ∈ res.acc) := by
  obtain ⟨res, hres⟩ :=
    sitemapLoop_some_of_fuel net base (suffSitemapFuel net base) (initState net base)
      (muSm_initState_le net base)
  refine ⟨res, hres,
    sitemapLoop_trace_nodup net base _ _ _ (initState_SmWf net base) hres, ?_, ?_⟩
  · exact sitemapLoop_queue_pages net base _ _ _ hres A hA
  · exact sitemapLoop_nested net base _ _ _ (initState_SmInv net base) hres A hA B hAB

/-- Witness for C3 at the concrete cyclic fixture `cycNet`. -/
theorem sitemap_cycle_safety_witness :
    ((find_sitemap_urls cycNet exBase (suffSitemapFuel cycNet exBase)).getD
      ⟨[], [], [], []⟩).trace.Nodup ∧
    "https://example.test/pa" ∈
      ((find_sitemap_urls cycNet exBase (suffSitemapFuel cycNet exBase)).getD
        ⟨[], [], [], []⟩).acc ∧
    "https://example.test/pb" ∈
      ((find_sitemap_urls cycNet exBase (suffSitemapFuel cycNet exBase)).getD
        ⟨[], [], [], []⟩).acc := by
  obtain ⟨res, h1, h2, h3, h4⟩ := sitemap_cycle_safety cycNet exBase
    "https://example.test/smA.xml" "https://example.test/smB.xml"
    (by decide) (by decide) (by decide)
  rw [h1]
  exact ⟨h2, h3 _ (by decide), h4 _ (by decide)⟩

/-- C8: for every network behaviour — individual sitemap or robots
fetches failing, returning non-200 statuses, or returning malformed
XML — the resolver still terminates with a result (the model is a total
function once fuelled, mirroring the source's blanket
`except RequestException` / `ET.ParseError` handlers), and every page
URL of every *working* candidate sitemap, and of every working sitemap
nested in one, is accumulated: offending sitemaps are skipped, not
fatal. -/
theorem sitemap_resolver_failure_tolerant (net : Net) (base : String) :
    ∃ res, find_sitemap_urls net base (suffSitemapFuel net base) = some res ∧
      (∀ u ∈ (initState net base).queue, ∀ p ∈ pagesOf net base u, p ∈ res.acc) ∧
      (∀ u ∈ (initState net base).queue, ∀ v ∈ sitemapLocsOf net u,
        ∀ p ∈ pagesOf net base v, p ∈ res.acc) := by
  obtain ⟨res, hres⟩ :=
    sitemapLoop_some_of_fuel net base (suffSitemapFuel net base) (initState net base)
      (muSm_initState_le net base)
  exact ⟨res, hres,
    fun u hu => sitemapLoop_queue_pages net base _ _ _ hres u hu,
    fun u hu v hv => sitemapLoop_nested net base _ _ _ (initState_SmInv net base) hres u hu v hv⟩

/-- Witness for C8 at the concrete partially-failing fixture `failNet`:
the working sitemap's pages are returned despite the robots failure,
the 500 and the malformed XML. -/
theorem sitemap_resolver_failure_tolerant_witness :
    "https://example.test/ok1" ∈
      ((find_sitemap_urls failNet exBase (suffSitemapFuel failNet exBase)).getD
        ⟨[], [], [], []⟩).acc ∧
    "https://example.test/ok2" ∈
      ((find_sitemap_urls failNet exBase (suffSitemapFuel failNet exBase)).getD
        ⟨[], [], [], []⟩).acc := by
  obtain ⟨res, h1, h2, _⟩ := sitemap_resolver_failure_tolerant failNet exBase
  rw [h1]
  exact ⟨h2 "https://example.test/sitemap.xml" (by decide) _ (by decide),
    h2 "https://example.test/sitemap.xml" (by decide) _ (by decide)⟩

/-- C5: on the end-to-end scenario network — robots.txt advertising a
sitemap with three page `<loc>` entries plus one nested sitemap holding
two more — the resolver returns exactly the five unique page URLs. -/
theorem sitemap_scenario_five_urls :
    (find_sitemap_urls c5Net exBase (suffSitemapFuel c5Net exBase)).map SmState.acc =
      some ["https://example.test/p1", "https://example.test/p2", "https://example.test/p3",
            "https://example.test/p4", "https://example.test/p5"] ∧
    ((find_sitemap_urls c5Net exBase (suffSitemapFuel c5Net exBase)).map
      (fun st => st.acc.length)) = some 5 ∧
    ((find_sitemap_urls c5Net exBase (suffSitemapFuel c5Net exBase)).map
      (fun st => st.acc.dedup.length)) = some 5 := by
  refine ⟨by decide, by decide, by decide⟩

/-- Visiting a page preserves the record/counter correspondence and the
budget bound. -/
theorem simpleCrawlVisit_budget (net : Net) (d : String) (maxP : Nat) (cur : String)
    (st1 : CrawlState) (hlen : st1.found.length = st1.count) (hle : st1.count ≤ maxP)
    (hlt : st1.count < maxP) :
    (simpleCrawlVisit net d maxP cur st1).found.length =
      (simpleCrawlVisit net d maxP cur st1).count ∧
    (simpleCrawlVisit net d maxP cur st1).count ≤ maxP := by
  unfold simpleCrawlVisit
  cases hfetch : fetchHtmlOk net cur with
  | none => exact ⟨hlen, hle⟩
  | some html =>
    simp only
    split
    · constructor
      · simp [hlen]
      · simp; omega
    · constructor
      · simp [hlen]
      · simp; omega

/-- Visiting a page preserves the record/counter correspondence and the
budget bound (browser variant). -/
theorem seleniumCrawlVisit_budget (net : Net) (d : String) (maxP : Nat) (cur : String)
    (st1 : CrawlState) (hlen : st1.found.length = st1.count) (hle : st1.count ≤ maxP)
    (hlt : st1.count < maxP) :
    (seleniumCrawlVisit net d maxP cur st1).found.length =
      (seleniumCrawlVisit net d maxP cur st1).count ∧
    (seleniumCrawlVisit net d maxP cur st1).count ≤ maxP := by
  unfold seleniumCrawlVisit
  cases hfetch : fetchNet net cur with
  | none => exact ⟨hlen, hle⟩
  | some r =>
    simp only
    split
    · constructor
      · simp [hlen]
      · simp; omega
    · constructor
      · simp [hlen]
      · simp; omega

/-- Budget invariant for the HTTP crawl loop: harvested records track
the processed counter, which never exceeds the page budget. -/
theorem simpleCrawlLoop_budget (net : Net) (d : String) (maxP : Nat) :
    ∀ (fuel : Nat) (st res : CrawlState), st.found.length = st.count → st.count ≤ maxP →
      simpleCrawlLoop net d maxP fuel st = some res → res.found.length ≤ maxP := by
  intro fuel
  induction fuel with
  | zero =>
    intro st res hlen hle h
    unfold simpleCrawlLoop at h
    split at h
    · cases h; omega
    · cases h
  | succ f ih =>
    intro st res hlen hle h
    unfold simpleCrawlLoop at h
    cases hq : st.queue with
    | nil => rw [hq] at h; cases h; omega
    | cons cur rest =>
      rw [hq] at h
      by_cases hcnt : st.count < maxP
      · by_cases hvis : st.visited.contains cur = true
        · refine ih { st with queue := rest } res hlen hle ?_
          have h2 : simpleCrawlLoop net d maxP f { st with queue := rest } = some res := by
            have hred : (match cur :: rest with
                | [] => some st
                | cur :: rest =>
                  if !decide (st.count < maxP) then some st
                  else if st.visited.contains cur then
                    simpleCrawlLoop net d maxP f { st with queue := rest }
                  else
                    simpleCrawlLoop net d maxP f
                      (simpleCrawlVisit net d maxP cur
                        { st with queue := rest, visited := st.visited ++ [cur] })) =
                simpleCrawlLoop net d maxP f { st with queue := rest } := by
              simp only
              rw [if_neg (by simp [hcnt]), if_pos hvis]
            rw [hred] at h
            exact h
          exact h2
        · have hS := simpleCrawlVisit_budget net d maxP cur
            { st with queue := rest, visited := st.visited ++ [cur] } hlen hle hcnt
          refine ih _ res hS.1 hS.2 ?_
          have hred : (match cur :: rest with
              | [] => some st
              | cur :: rest =>
                if !decide (st.count < maxP) then some st
                else if st.visited.contains cur then
                  simpleCrawlLoop net d maxP f { st with queue := rest }
                else
                  simpleCrawlLoop net d maxP f
                    (simpleCrawlVisit net d maxP cur
                      { st with queue := rest, visited := st.visited ++ [cur] })) =
              simpleCrawlLoop net d maxP f
                (simpleCrawlVisit net d maxP cur
                  { st with queue := rest, visited := st.visited ++ [cur] }) := by
            simp only
            rw [if_neg (by simp [hcnt]), if_neg hvis]
          rw [hred] at h
          exact h
      · have hred : (match cur :: rest with
            | [] => some st
            | cur :: rest =>
              if !decide (st.count < maxP) then some st
              else if st.visited.contains cur then
                simpleCrawlLoop net d maxP f { st with queue := rest }
              else
                simpleCrawlLoop net d maxP f
                  (simpleCrawlVisit net d maxP cur
                    { st with queue := rest, visited := st.visited ++ [cur] })) = some st := by
          simp only
          rw [if_pos (by simp [hcnt])]
        rw [hred] at h
        cases h
        omega

/-- Budget invariant for the browser crawl loop. -/
theorem seleniumCrawlLoop_budget (net : Net) (d : String) (maxP : Nat) :
    ∀ (fuel : Nat) (st res : CrawlState), st.found.length = st.count → st.count ≤ maxP →
      seleniumCrawlLoop net d maxP fuel st = some res → res.found.length ≤ maxP := by
  intro fuel
  induction fuel with
  | zero =>
    intro st res hlen hle h
    unfold seleniumCrawlLoop at h
    split at h
    · cases h; omega
    · cases h
  | succ f ih =>
    intro st res hlen hle h
    unfold seleniumCrawlLoop at h
    cases hq : st.queue with
    | nil => rw [hq] at h; cases h; omega
    | cons cur rest =>
      rw [hq] at h
      by_cases hcnt : st.count < maxP
      · by_cases hvis : st.visited.contains cur = true
        · refine ih { st with queue := rest } res hlen hle ?_
          have hred : (match cur :: rest with
              | [] => some st
              | cur :: rest =>
                if !decide (st.count < maxP) then some st
                else if st.visited.contains cur then
                  seleniumCrawlLoop net d maxP f { st with queue := rest }
                else if !(netloc cur == d) then
                  seleniumCrawlLoop net d maxP f { st with queue := rest }
                else
                  seleniumCrawlLoop net d maxP f
                    (seleniumCrawlVisit net d maxP cur
                      { st with queue := rest, visited := st.visited ++ [cur] })) =
              seleniumCrawlLoop net d maxP f { st with queue := rest } := by
            simp only
            rw [if_neg (by simp [hcnt]), if_pos hvis]
          rw [hred] at h
          exact h
        · by_cases hdom : (netloc cur == d) = true
          · have hS := seleniumCrawlVisit_budget net d maxP cur
              { st with queue := rest, visited := st.visited ++ [cur] } hlen hle hcnt
            refine ih _ res hS.1 hS.2 ?_
            have hred : (match cur :: rest with
                | [] => some st
                | cur :: rest =>
                  if !decide (st.count < maxP) then some st
                  else if st.visited.contains cur then
                    seleniumCrawlLoop net d maxP f { st with queue := rest }
                  else if !(netloc cur == d) then
                    seleniumCrawlLoop net d maxP f { st with queue := rest }
                  else
                    seleniumCrawlLoop net d maxP f
                      (seleniumCrawlVisit net d maxP cur
                        { st with queue := rest, visited := st.visited ++ [cur] })) =
                seleniumCrawlLoop net d maxP f
                  (seleniumCrawlVisit net d maxP cur
                    { st with queue := rest, visited := st.visited ++ [cur] }) := by
              simp only
              rw [if_neg (by simp [hcnt]), if_neg hvis, if_neg (by simp [hdom])]
            rw [hred] at h
            exact h
          · refine ih { st with queue := rest } res hlen hle ?_
            have hred : (match cur :: rest with
                | [] => some st
                | cur :: rest =>
                  if !decide (st.count < maxP) then some st
                  else if st.visited.contains cur then
                    seleniumCrawlLoop net d maxP f { st with queue := rest }
                  else if !(netloc cur == d) then
                    seleniumCrawlLoop net d maxP f { st with queue := rest }
                  else
                    seleniumCrawlLoop net d maxP f
                      (seleniumCrawlVisit net d maxP cur
                        { st with queue := rest, visited := st.visited ++ [cur] })) =
                seleniumCrawlLoop net d maxP f { st with queue := rest } := by
              simp only
              rw [if_neg (by simp [hcnt]), if_neg hvis,
                if_pos (by simp [Bool.eq_false_iff.mpr hdom])]
            rw [hred] at h
            exact h
      · have hred : (match cur :: rest with
            | [] => some st
            | cur :: rest =>
              if !decide (st.count < maxP) then some st
              else if st.visited.contains cur then
                seleniumCrawlLoop net d maxP f { st with queue := rest }
              else if !(netloc cur == d) then
                seleniumCrawlLoop net d maxP f { st with queue := rest }
              else
                seleniumCrawlLoop net d maxP f
                  (seleniumCrawlVisit net d maxP cur
                    { st with queue := rest, visited := st.visited ++ [cur] })) = some st := by
          simp only
          rw [if_pos (by simp [hcnt])]
        rw [hred] at h
        cases h
        omega

/-- C6: for every root URL, page budget and network, each fallback
crawler variant returns at most `maxP` discovered-page records. -/
theorem crawl_budget_respect (net : Net) (base : String) (maxP fuel : Nat) :
    (∀ res, simple_crawl_website net base maxP fuel = some res → res.length ≤ maxP) ∧
    (∀ res, selenium_crawl_website net base maxP fuel = some res → res.length ≤ maxP) := by
  constructor
  · intro res h
    unfold simple_crawl_website at h
    rw [Option.map_eq_some'] at h
    obtain ⟨st, hst, hres⟩ := h
    rw [← hres]
    exact simpleCrawlLoop_budget net (netloc base) maxP fuel _ st rfl (Nat.zero_le _) hst
  · intro res h
    unfold selenium_crawl_website at h
    rw [Option.map_eq_some'] at h
    obtain ⟨st, hst, hres⟩ := h
    rw [← hres]
    exact seleniumCrawlLoop_budget net (netloc base) maxP fuel _ st rfl (Nat.zero_le _) hst

/-- Witness for C6: both crawler variants on the concrete fixture with
budget 2 return at most 2 records. -/
theorem crawl_budget_respect_witness :
    ((simple_crawl_website crawlNet "https://site.test/" 2 10).getD []).length ≤ 2 ∧
    ((selenium_crawl_website crawlNet "https://site.test/" 2 10).getD []).length ≤ 2 := by
  constructor
  · exact (crawl_budget_respect crawlNet "https://site.test/" 2 10).1
      ((simple_crawl_website crawlNet "https://site.test/" 2 10).getD []) (by decide)
  · exact (crawl_budget_respect crawlNet "https://site.test/" 2 10).2
      ((selenium_crawl_website crawlNet "https://site.test/" 2 10).getD []) (by decide)

/-- One enqueue step either leaves the queue unchanged or appends the
normalised URL, which then provably passed every guard. -/
theorem enqueueStep_spec (d : String) (visited : List String) (cur : String) (maxP : Nat)
    (capCount : Option Nat) (q : List String) (href : String) :
    enqueueStep d visited cur maxP capCount q href = q ∨
    (enqueueStep d visited cur maxP capCount q href =
        q ++ [stripFragQuery (urljoinM cur href)] ∧
      netloc (stripFragQuery (urljoinM cur href)) = d ∧
      stripFragQuery (urljoinM cur href) ∉ visited ∧
      stripFragQuery (urljoinM cur href) ∉ q) := by
  unfold enqueueStep
  simp only
  split
  next hc =>
    simp only [Bool.and_eq_true, beq_iff_eq, Bool.not_eq_true'] at hc
    refine Or.inr ⟨rfl, hc.1.1.1, ?_, ?_⟩
    · intro hv
      have h2 := hc.1.1.2
      rw [(contains_iff_mem_str visited _).mpr hv] at h2
      simp at h2
    · intro hq
      have h2 := hc.1.2
      rw [(contains_iff_mem_str q _).mpr hq] at h2
      simp at h2
  next hc => exact Or.inl rfl

/-- C7: every URL either fallback crawler variant appends to its
frontier through the link-enqueue fold (`enqueueLinks`, used by the
HTTP variant's seed scan with `capCount = none` and by both variants'
in-loop harvests) is the fragment-and-query-stripped normalisation of a
resolved `href`, lies on the root's host, was not in the visited set,
and was not in the queue at enqueue time (the extension is
duplicate-free, so later enqueues of the same batch also see it), in
any cap mode.  The browser variant's one other enqueue — seeding the
root URL itself into an empty frontier with an empty visited set —
satisfies the same freshness conditions trivially and is same-host by
`netloc base = netloc base`. -/
theorem fallback_enqueue_same_origin_fresh (base : String) (visited : List String)
    (cur : String) (maxP : Nat) (capCount : Option Nat) (hrefs queue : List String) :
    ∃ ext, enqueueLinks (netloc base) visited cur maxP capCount hrefs queue = queue ++ ext ∧
      ext.Nodup ∧
      ∀ u ∈ ext, netloc u = netloc base ∧ u ∉ visited ∧ u ∉ queue ∧
        ∃ href ∈ hrefs, u = stripFragQuery (urljoinM cur href) := by
  unfold enqueueLinks
  induction hrefs generalizing queue with
  | nil => exact ⟨[], by simp, List.nodup_nil, by simp⟩
  | cons href rest ih =>
    rw [List.foldl_cons]
    rcases enqueueStep_spec (netloc base) visited cur maxP capCount queue href with
      hkeep | ⟨hadd, hnl, hnv, hnq⟩
    · rw [hkeep]
      obtain ⟨ext, heq, hnd, hprop⟩ := ih queue
      refine ⟨ext, heq, hnd, ?_⟩
      intro u hu
      obtain ⟨h1, h2, h3, href2, h4, h5⟩ := hprop u hu
      exact ⟨h1, h2, h3, href2, List.mem_cons_of_mem _ h4, h5⟩
    · rw [hadd]
      obtain ⟨ext, heq, hnd, hprop⟩ := ih (queue ++ [stripFragQuery (urljoinM cur href)])
      refine ⟨stripFragQuery (urljoinM cur href) :: ext, by rw [heq]; simp, ?_, ?_⟩
      · refine List.nodup_cons.mpr ⟨?_, hnd⟩
        intro hmem
        exact (hprop _ hmem).2.2.1 (by simp)
      · intro u hu
        rcases List.mem_cons.mp hu with rfl | humem
        · exact ⟨hnl, hnv, hnq, href, List.mem_cons_self _ _, rfl⟩
        · obtain ⟨h1, h2, h3, href2, h4, h5⟩ := hprop u humem
          exact ⟨h1, h2, fun hq => h3 (by simp [hq]), href2, List.mem_cons_of_mem _ h4, h5⟩

/-- Witness for C7: on a concrete link harvest the theorem yields the
same-origin and freshness facts for the one URL that gets enqueued. -/
theorem fallback_enqueue_same_origin_fresh_witness :
    netloc "https://site.test/a" = netloc "https://site.test/" ∧
    "https://site.test/a" ∉ (["https://site.test/old"] : List String) ∧
    "https://site.test/a" = stripFragQuery (urljoinM "https://site.test/" "/a#frag") := by
  obtain ⟨ext, heq, hnd, hprop⟩ := fallback_enqueue_same_origin_fresh "https://site.test/"
    ["https://site.test/old"] "https://site.test/" 30 none ["/a#frag"] []
  have h0 : enqueueLinks (netloc "https://site.test/") ["https://site.test/old"]
      "https://site.test/" 30 none ["/a#frag"] [] = ["https://site.test/a"] := by decide
  rw [h0] at heq
  have hext : ext = ["https://site.test/a"] := by simpa using heq.symm
  subst hext
  obtain ⟨h1, h2, _, href, hh, h5⟩ := hprop "https://site.test/a" (by simp)
  have hhref : href = "/a#frag" := by simpa using hh
  subst hhref
  exact ⟨h1, h2, h5⟩

/-- A failed lookup means the key is absent. -/
theorem lookup_none_not_mem_keys (m : PageMap) (k : String)
    (h : m.lookup k = none) : k ∉ m.map Prod.fst := by
  induction m with
  | nil => simp
  | cons p t ih =>
    rcases p with ⟨k2, v⟩
    by_cases hk : k = k2
    · subst hk; simp [List.lookup] at h
    · simp only [List.lookup, (by simpa using hk : (k == k2) = false)] at h
      simp only [List.map_cons, List.mem_cons]
      exact fun hc => hc.elim (fun he => hk he) (fun hm => ih h hm)

/-- Record updates keep the key list. -/
theorem assocUpdate_keys (m : PageMap) (k : String) (f : PageRec → PageRec) :
    (assocUpdate m k f).map Prod.fst = m.map Prod.fst := by
  induction m with
  | nil => rfl
  | cons p t ih =>
    show ((if p.1 == k then (p.1, f p.2) else p).1) :: (assocUpdate t k f).map Prod.fst =
      p.1 :: t.map Prod.fst
    rw [ih]
    congr 1
    split <;> rfl

/-- Appending a fresh key preserves key uniqueness. -/
theorem nodup_keys_insert (m : PageMap) (k : String) (v : PageRec)
    (hnd : (m.map Prod.fst).Nodup) (h : m.lookup k = none) :
    ((m ++ [(k, v)]).map Prod.fst).Nodup := by
  rw [List.map_append]
  rw [List.nodup_append]
  refine ⟨hnd, by simp, ?_⟩
  intro x hx hxk
  simp at hxk
  subst hxk
  exact lookup_none_not_mem_keys m x h hx

/-- A fold whose steps preserve key uniqueness preserves it. -/
theorem foldl_preserves_nodup_keys {α : Type} (step : PageMap → α → PageMap)
    (hstep : ∀ mp a, (mp.map Prod.fst).Nodup → ((step mp a).map Prod.fst).Nodup)
    (l : List α) :
    ∀ m : PageMap, (m.map Prod.fst).Nodup → ((l.foldl step m).map Prod.fst).Nodup := by
  induction l with
  | nil => intro m h; exact h
  | cons a rest ih =>
    intro m h
    rw [List.foldl_cons]
    exact ih _ (hstep m a h)

/-- One ingestion step preserves key uniqueness. -/
theorem ingestStep_nodup_keys (mp : PageMap) (u : String)
    (hnd : (mp.map Prod.fst).Nodup) : ((ingestStep mp u).map Prod.fst).Nodup := by
  unfold ingestStep
  cases hl : mp.lookup u with
  | none =>
    simp only [hl, Option.isSome_none, Bool.false_eq_true, if_false]
    exact nodup_keys_insert mp u _ hnd hl
  | some ex =>
    simp only [hl, Option.isSome_some, if_true]
    exact hnd

/-- One probe step preserves key uniqueness. -/
theorem probeStep_nodup_keys (net : Net) (base : String) (mp : PageMap) (path : String)
    (hnd : (mp.map Prod.fst).Nodup) : ((probeStep net base mp path).map Prod.fst).Nodup := by
  cases hl : mp.lookup (probeCandidate base path) with
  | some ex =>
    by_cases hnone : ex.html_source.isNone = true
    · cases hf : fetchFull net (probeCandidate base path) with
      | none =>
        have he : probeStep net base mp path = mp := by
          simp [probeStep, hl, hnone, hf]
        rw [he]; exact hnd
      | some html =>
        by_cases hemp : html = ""
        · have he : probeStep net base mp path = mp := by
            simp [probeStep, hl, hnone, hf, hemp]
          rw [he]; exact hnd
        · have he : probeStep net base mp path =
              assocUpdate mp (probeCandidate base path) (fun e =>
                { e with html_source := some html,
                         title := if e.title == "N/A" then getPageTitleFromHtml html
                                  else e.title }) := by
            simp [probeStep, hl, hnone, hf, hemp]
          rw [he, assocUpdate_keys]; exact hnd
    · have he : probeStep net base mp path = mp := by
        simp [probeStep, hl, hnone]
      rw [he]; exact hnd
  | none =>
    cases hf : fetchFull net (probeCandidate base path) with
    | none =>
      have he : probeStep net base mp path = mp := by
        simp [probeStep, hl, hf]
      rw [he]; exact hnd
    | some html =>
      by_cases hemp : html = ""
      · have he : probeStep net base mp path = mp := by
          simp [probeStep, hl, hf, hemp]
        rw [he]; exact hnd
      · have he : probeStep net base mp path = mp ++ [(probeCandidate base path,
            ⟨probeCandidate base path, getPageTitleFromHtml html, "found_by_probe",
              some html⟩)] := by
          simp [probeStep, hl, hf, hemp]
        rw [he]
        exact nodup_keys_insert mp _ _ hnd hl

/-- One backfill step preserves key uniqueness. -/
theorem backfillStep_nodup_keys (net : Net) (base : String) (mp : PageMap) (u : String)
    (hnd : (mp.map Prod.fst).Nodup) : ((backfillStep net base mp u).map Prod.fst).Nodup := by
  by_cases hdom : (!(netloc u == netloc base)) = true
  · have he : backfillStep net base mp u = mp := by
      unfold backfillStep; rw [if_pos hdom]
    rw [he]; exact hnd
  · cases hf : fetchHtmlOk net u with
    | none =>
      have he : backfillStep net base mp u = mp := by
        unfold backfillStep; rw [if_neg hdom, hf]
      rw [he]; exact hnd
    | some html =>
      have he : backfillStep net base mp u = assocUpdate mp u (fun e =>
          { e with title := getPageTitleFromHtml html,
                   status := "sitemap_title_fetched" }) := by
        unfold backfillStep; rw [if_neg hdom, hf]
      rw [he, assocUpdate_keys]; exact hnd

/-- One fallback-merge step preserves key uniqueness. -/
theorem mergeStep_nodup_keys (mp : PageMap) (p : PageRec)
    (hnd : (mp.map Prod.fst).Nodup) : ((mergeStep mp p).map Prod.fst).Nodup := by
  cases hl : mp.lookup p.url with
  | none =>
    have he : mergeStep mp p = mp ++ [(p.url, p)] := by
      unfold mergeStep; rw [hl]
    rw [he]
    exact nodup_keys_insert mp _ _ hnd hl
  | some ex =>
    by_cases hc : (p.html_source.isSome && ex.html_source.isNone) = true
    · have he : mergeStep mp p = assocUpdate mp p.url (fun e =>
          { e with html_source := p.html_source,
                   title := if !(p.title == "N/A") then p.title else e.title }) := by
        unfold mergeStep; rw [hl]; simp only; rw [if_pos hc]
      rw [he, assocUpdate_keys]; exact hnd
    · have he : mergeStep mp p = mp := by
        unfold mergeStep; rw [hl]; simp only; rw [if_neg hc]
      rw [he]; exact hnd

/-- The seed map has at most one entry. -/
theorem seedMap_nodup_keys (net : Net) (base : String) :
    ((seedMap net base).map Prod.fst).Nodup := by
  unfold seedMap
  cases fetchHtmlOk net base <;> simp

/-- The pre-fallback aggregate has pairwise-distinct keys. -/
theorem aggregatePreFallback_nodup_keys (net : Net) (base tl : String) (acc : List String) :
    ((aggregatePreFallback net base tl acc).map Prod.fst).Nodup := by
  unfold aggregatePreFallback backfillTitles probe_core_pages ingestSitemapUrls
  refine foldl_preserves_nodup_keys _ (fun mp u => backfillStep_nodup_keys net base mp u) _ _ ?_
  refine foldl_preserves_nodup_keys _ (fun mp u => probeStep_nodup_keys net base mp u) _ _ ?_
  refine foldl_preserves_nodup_keys _ (fun mp u => ingestStep_nodup_keys mp u) _ _ ?_
  exact seedMap_nodup_keys net base

/-- When the pre-fallback aggregate is large enough, no crawl runs. -/
theorem aggregateAfterSitemap_no_crawl (net : Net) (base tl : String) (useSel : Bool)
    (fuel : Nat) (smAcc : List String)
    (hlen : ¬ (aggregatePreFallback net base tl smAcc).length <
      MIN_DISCOVERED_PAGES_BEFORE_FALLBACK_CRAWL) :
    aggregateAfterSitemap net base tl useSel fuel smAcc =
      some (aggregatePreFallback net base tl smAcc) := by
  unfold aggregateAfterSitemap
  rw [if_neg hlen]

/-- Key uniqueness of whatever `aggregateAfterSitemap` returns. -/
theorem aggregateAfterSitemap_nodup_keys (net : Net) (base tl : String) (useSel : Bool)
    (fuel : Nat) (smAcc : List String) (m : PageMap)
    (h : aggregateAfterSitemap net base tl useSel fuel smAcc = some m) :
    (m.map Prod.fst).Nodup := by
  by_cases hlen : (aggregatePreFallback net base tl smAcc).length <
      MIN_DISCOVERED_PAGES_BEFORE_FALLBACK_CRAWL
  · have hred : aggregateAfterSitemap net base tl useSel fuel smAcc =
        (if useSel then
            selenium_crawl_website net base MAX_PAGES_FOR_FALLBACK_DISCOVERY_CRAWL fuel
          else
            simple_crawl_website net base MAX_PAGES_FOR_FALLBACK_DISCOVERY_CRAWL fuel).map
          (mergeFallback (aggregatePreFallback net base tl smAcc)) := by
      unfold aggregateAfterSitemap
      rw [if_pos hlen]
    rw [hred] at h
    rw [Option.map_eq_some'] at h
    obtain ⟨found, _, hm⟩ := h
    rw [← hm]
    unfold mergeFallback
    exact foldl_preserves_nodup_keys _ (fun mp p => mergeStep_nodup_keys mp p) _ _
      (aggregatePreFallback_nodup_keys net base tl smAcc)
  · rw [aggregateAfterSitemap_no_crawl net base tl useSel fuel smAcc hlen] at h
    have h2 := Option.some.inj h
    rw [← h2]
    exact aggregatePreFallback_nodup_keys net base tl smAcc

/-- C4 (amended): the discovery aggregate is a dict keyed by the raw
URL string, so no two of its entries ever share an *equal key*; this is
the uniqueness the code actually guarantees (the spec's stronger
normalised-URL uniqueness fails, see the counterexample). -/
theorem discovery_aggregate_key_unique (net : Net) (base tl : String) (useSel : Bool)
    (fuel : Nat) (m : PageMap) (h : discovery_aggregate net base tl useSel fuel = some m) :
    (m.map Prod.fst).Nodup := by
  cases hsm : find_sitemap_urls net base fuel with
  | none =>
    have hred : discovery_aggregate net base tl useSel fuel = none := by
      unfold discovery_aggregate; rw [hsm]
    rw [hred] at h
    cases h
  | some smRes =>
    have hred0 : discovery_aggregate net base tl useSel fuel =
        aggregateAfterSitemap net base tl useSel fuel smRes.acc := by
      unfold discovery_aggregate; rw [hsm]
    rw [hred0] at h
    exact aggregateAfterSitemap_nodup_keys net base tl useSel fuel smRes.acc m h

/-- Counterexample to C4 as stated: a full discovery run (seed fetch
failing, sitemap contributing both URL variants, probing and fallback
crawl finding nothing) whose aggregate map holds two distinct entries
with *equal normalised URLs* (fragment/query stripped, host
lower-cased) — the sitemap path stores raw URLs, so normalised-URL
uniqueness does not hold. -/
theorem discovery_aggregate_normalized_dup_cex :
    (discovery_aggregate dupNet exBase "English" false 10).map (fun m => m.map Prod.fst) =
      some ["https://example.test/a", "https://example.test/a?x=1"] ∧
    ("https://example.test/a" : String) ≠ "https://example.test/a?x=1" ∧
    normalizeClaim "https://example.test/a" = normalizeClaim "https://example.test/a?x=1" := by
  exact ⟨by decide, by decide, by decide⟩

/-- Witness for the amended C4 at the same concrete network. -/
theorem discovery_aggregate_key_unique_witness :
    ((((discovery_aggregate dupNet exBase "English" false 10).getD []).map Prod.fst)).Nodup :=
  discovery_aggregate_key_unique dupNet exBase "English" false 10
    ((discovery_aggregate dupNet exBase "English" false 10).getD []) (by decide)

/-- The extraction fold is `filterMap` of the oracle. -/
theorem extractChunks_eq_filterMap (extractOracle : String → Option KChunk) :
    ∀ (selected : List String) (acc : List KChunk),
      selected.foldl (fun acc p =>
        match extractOracle p with
        | some c => acc ++ [c]
        | none => acc) acc = acc ++ selected.filterMap extractOracle := by
  intro selected
  induction selected with
  | nil => intro acc; simp
  | cons p rest ih =>
    intro acc
    rw [List.foldl_cons, List.filterMap_cons]
    cases ho : extractOracle p with
    | none => simp only [ho]; exact ih acc
    | some c => simp only [ho]; rw [ih (acc ++ [c])]; simp

/-- C1 (amended): a completed job always carries a compiled result and
no error; a failed job always carries an error message — but on the
handled failure paths the `final_knowledge_base` field is *also* set
(to the same explanatory placeholder), so "failed implies final result
unset" does not hold (see the counterexample). -/
theorem job_terminal_fields (target_language : String) (discovered : List (String × String))
    (selectOracle : List (String × String) → List String)
    (extractOracle : String → Option KChunk) (compileFn : List KChunk → String) :
    ((run_job_pipeline target_language discovered selectOracle extractOracle
        compileFn).status = "completed" →
      (run_job_pipeline target_language discovered selectOracle extractOracle
        compileFn).final_knowledge_base.isSome ∧
      (run_job_pipeline target_language discovered selectOracle extractOracle
        compileFn).error = none) ∧
    ((run_job_pipeline target_language discovered selectOracle extractOracle
        compileFn).status = "failed" →
      (run_job_pipeline target_language discovered selectOracle extractOracle
        compileFn).error.isSome) := by
  unfold run_job_pipeline
  split
  · exact ⟨(fun hc => by simp at hc), (fun _ => by simp)⟩
  · split
    · exact ⟨(fun hc => by simp at hc), (fun _ => by simp)⟩
    · split
      · exact ⟨(fun hc => by simp at hc), (fun _ => by simp)⟩
      · exact ⟨(fun _ => by simp), (fun hc => by simp at hc)⟩

/-- Witness for the amended C1: one concretely completed run and one
concretely failed run, with the asserted fields. -/
theorem job_terminal_fields_witness :
    (run_job_pipeline "English" [("https://example.test/", "Home")]
        (fun pages => pages.map Prod.fst)
        (fun u => some ⟨u, "T", "body"⟩) (fun _ => "KB")).final_knowledge_base.isSome ∧
    (run_job_pipeline "English" [("https://example.test/", "Home")]
        (fun pages => pages.map Prod.fst)
        (fun u => some ⟨u, "T", "body"⟩) (fun _ => "KB")).error = none ∧
    (run_job_pipeline "English" [] (fun pages => pages.map Prod.fst)
        (fun u => some ⟨u, "T", "body"⟩) (fun _ => "KB")).error.isSome := by
  refine ⟨?_, ?_, ?_⟩
  · exact ((job_terminal_fields "English" [("https://example.test/", "Home")]
      (fun pages => pages.map Prod.fst) (fun u => some ⟨u, "T", "body"⟩)
      (fun _ => "KB")).1 (by decide)).1
  · exact ((job_terminal_fields "English" [("https://example.test/", "Home")]
      (fun pages => pages.map Prod.fst) (fun u => some ⟨u, "T", "body"⟩)
      (fun _ => "KB")).1 (by decide)).2
  · exact (job_terminal_fields "English" [] (fun pages => pages.map Prod.fst)
      (fun u => some ⟨u, "T", "body"⟩) (fun _ => "KB")).2 (by decide)

/-- Counterexample to C1 as stated: a job whose discovery finds no
pages terminates `failed` with `final_knowledge_base` *set* (to the
explanatory placeholder), contradicting "when the status is 'failed'
its final result field is unset". -/
theorem job_failed_final_set_cex :
    (run_job_pipeline "English" [] (fun pages => pages.map Prod.fst)
        (fun u => some ⟨u, "T", "body"⟩) (fun _ => "KB")).status = "failed" ∧
    (run_job_pipeline "English" [] (fun pages => pages.map Prod.fst)
        (fun u => some ⟨u, "T", "body"⟩) (fun _ => "KB")).final_knowledge_base =
      some "Could not generate KB: Discovery phase found no pages." := by
  exact ⟨by decide, by decide⟩

/-- C2: whenever the selection step returns a non-empty set of pages
and at least one selected page's extraction succeeds, the job reaches
`completed`, compiling exactly the successful chunks (the oracle's
`filterMap` over the selected pages) — per-page extraction failures do
not fail the job. -/
theorem partial_extraction_tolerance (target_language : String)
    (discovered : List (String × String))
    (selectOracle : List (String × String) → List String)
    (extractOracle : String → Option KChunk) (compileFn : List KChunk → String)
    (hdisc : discovered ≠ [])
    (hsel : selectOracle discovered ≠ [])
    (hone : ∃ p ∈ selectOracle discovered, (extractOracle p).isSome) :
    (run_job_pipeline target_language discovered selectOracle extractOracle
        compileFn).status = "completed" ∧
    (run_job_pipeline target_language discovered selectOracle extractOracle
        compileFn).final_knowledge_base =
      some (compileFn ((selectOracle discovered).filterMap extractOracle)) := by
  have hchunks : extractChunks extractOracle (selectOracle discovered) =
      (selectOracle discovered).filterMap extractOracle := by
    unfold extractChunks
    rw [extractChunks_eq_filterMap]
    simp
  have hne : ¬ (extractChunks extractOracle (selectOracle discovered)).isEmpty = true := by
    rw [hchunks]
    obtain ⟨p, hp, hsome⟩ := hone
    cases ho : extractOracle p with
    | none => rw [ho] at hsome; simp at hsome
    | some c =>
      have : c ∈ (selectOracle discovered).filterMap extractOracle :=
        List.mem_filterMap.mpr ⟨p, hp, ho⟩
      intro hc
      rw [List.isEmpty_iff] at hc
      rw [hc] at this
      simp at this
  unfold run_job_pipeline
  rw [if_neg (by simpa using hdisc)]
  rw [if_neg (by simpa using hsel)]
  rw [if_neg hne]
  rw [hchunks]
  exact ⟨rfl, rfl⟩

/-- Witness for C2: five selected pages of which two raise extraction
errors — the job completes with exactly the three successful chunks. -/
theorem partial_extraction_tolerance_witness :
    (run_job_pipeline "English"
        [("u1", "T1"), ("u2", "T2"), ("u3", "T3"), ("u4", "T4"), ("u5", "T5")]
        (fun pages => pages.map Prod.fst)
        (fun u => if u = "u2" ∨ u = "u4" then none else some ⟨u, u, u⟩)
        (fun cs => String.intercalate "+" (cs.map KChunk.url))).status = "completed" ∧
    (run_job_pipeline "English"
        [("u1", "T1"), ("u2", "T2"), ("u3", "T3"), ("u4", "T4"), ("u5", "T5")]
        (fun pages => pages.map Prod.fst)
        (fun u => if u = "u2" ∨ u = "u4" then none else some ⟨u, u, u⟩)
        (fun cs => String.intercalate "+" (cs.map KChunk.url))).final_knowledge_base =
      some (String.intercalate "+"
        ((["u1", "u2", "u3", "u4", "u5"].filterMap
          (fun u => if u = "u2" ∨ u = "u4" then none else some (⟨u, u, u⟩ : KChunk))).map
            KChunk.url)) := by
  have h := partial_extraction_tolerance "English"
    [("u1", "T1"), ("u2", "T2"), ("u3", "T3"), ("u4", "T4"), ("u5", "T5")]
    (fun pages => pages.map Prod.fst)
    (fun u => if u = "u2" ∨ u = "u4" then none else some ⟨u, u, u⟩)
    (fun cs => String.intercalate "+" (cs.map KChunk.url))
    (by decide) (by decide) ⟨"u1", by decide, by decide⟩
  exact ⟨h.1, h.2⟩

/-- C9 (amended): a completed job's full payload is always returned;
when the status is not `completed`, a payload *longer than 1000
characters* is removed and replaced by the bounded 1000-character
preview — but a payload of at most 1000 characters is returned in
full regardless of status (which is what refutes the claim as stated,
see the counterexample). -/
theorem job_status_payload_shaping (j : JobRecord) (kb : String)
    (hkb : j.final_knowledge_base = some kb) :
    (j.status = "completed" →
      (get_knowledge_base_job_status j).final_knowledge_base = some kb) ∧
    (j.status ≠ "completed" → strLength kb > 1000 →
      (get_knowledge_base_job_status j).final_knowledge_base = none ∧
      (get_knowledge_base_job_status j).final_knowledge_base_preview =
        some (strTake kb 1000 ++ KB_PREVIEW_SUFFIX) ∧
      strLength (strTake kb 1000) ≤ 1000) ∧
    (strLength kb ≤ 1000 →
      (get_knowledge_base_job_status j).final_knowledge_base = some kb) := by
  unfold get_knowledge_base_job_status
  simp only [hkb]
  by_cases hlen : strLength kb > 1000
  · rw [if_pos hlen]
    refine ⟨?_, ?_, ?_⟩
    · intro hc
      simp [hc]
    · intro hc _
      refine ⟨by simp [hc], rfl, ?_⟩
      unfold strLength strTake
      simp
    · intro hc
      omega
  · rw [if_neg hlen]
    exact ⟨(fun _ => rfl), (fun _ hc => absurd hc hlen), (fun _ => rfl)⟩

/-- Witness for the amended C9: a still-running job with a 1001-char
payload gets only the preview; a completed one keeps its payload. -/
theorem job_status_payload_shaping_witness :
    (get_knowledge_base_job_status
      ⟨"compiling_kb", some (String.mk (List.replicate 1001 'x'))⟩).final_knowledge_base =
        none ∧
    (get_knowledge_base_job_status
      ⟨"completed", some "done"⟩).final_knowledge_base = some "done" := by
  constructor
  · exact ((job_status_payload_shaping
      ⟨"compiling_kb", some (String.mk (List.replicate 1001 'x'))⟩
      (String.mk (List.replicate 1001 'x')) rfl).2.1 (by decide) (by decide)).1
  · exact (job_status_payload_shaping ⟨"completed", some "done"⟩ "done" rfl).1 rfl

/-- Counterexample to C9 as stated: a *failed* job whose stored payload
is short (the explanatory placeholder) has that payload returned in
full — not as a truncated preview — even though the status is not
`completed`. -/
theorem job_status_full_payload_cex :
    (get_knowledge_base_job_status ⟨"failed", some "oops"⟩).status = "failed" ∧
    (get_knowledge_base_job_status ⟨"failed", some "oops"⟩).final_knowledge_base =
      some "oops" := by
  exact ⟨by decide, by decide⟩

/-- C10 (amended): for every request whose `max_pages` is
*non-negative*, the number of selected pages is at most
`min(max_pages, MAX_PAGES_FOR_KB_GENERATION)`; the endpoint clamp plus
the `[:limit]` truncation enforce the bound.  (A negative `max_pages`
defeats the bound through Python's negative-slice semantics, see the
counterexample.) -/
theorem selection_clamped (max_pages_input : Int) (page_details : List (String × String))
    (aiItems : List (Option AiSelItem)) (hpos : 0 ≤ max_pages_input) :
    (pages_selected_count max_pages_input page_details aiItems : Int) ≤
      pyMin max_pages_input MAX_PAGES_FOR_KB_GENERATION := by
  have hlim : ai_selection_limit max_pages_input =
      pyMin max_pages_input MAX_PAGES_FOR_KB_GENERATION := by
    unfold ai_selection_limit effective_max_pages pyMin MAX_PAGES_FOR_KB_GENERATION
    by_cases h : max_pages_input ≤ (15 : Int)
    · simp [h]
    · simp [h]
  have hnn : 0 ≤ pyMin max_pages_input MAX_PAGES_FOR_KB_GENERATION := by
    unfold pyMin MAX_PAGES_FOR_KB_GENERATION
    split <;> omega
  unfold pages_selected_count
  rw [hlim]
  unfold select_relevant_pages_for_kb pySliceTo
  rw [if_pos hnn]
  have htake := List.length_take_le
    (pyMin max_pages_input MAX_PAGES_FOR_KB_GENERATION).toNat
    (aiItems.foldl (fun acc it =>
      match it with
      | some item =>
        if (page_details.map Prod.fst).contains item.url then
          acc ++ [(⟨item.url,
            (((page_details.find? (fun p => p.1 == item.url)).map Prod.snd).getD "N/A"),
            item.reason⟩ : SelectedPage)]
        else acc
      | none => acc) [])
  have : ((List.take (pyMin max_pages_input MAX_PAGES_FOR_KB_GENERATION).toNat
      (aiItems.foldl (fun acc it =>
        match it with
        | some item =>
          if (page_details.map Prod.fst).contains item.url then
            acc ++ [(⟨item.url,
              (((page_details.find? (fun p => p.1 == item.url)).map Prod.snd).getD "N/A"),
              item.reason⟩ : SelectedPage)]
          else acc
        | none => acc) [])).length : Int) ≤
      ((pyMin max_pages_input MAX_PAGES_FOR_KB_GENERATION).toNat : Int) := by
    exact_mod_cast htake
  calc ((List.take (pyMin max_pages_input MAX_PAGES_FOR_KB_GENERATION).toNat
      (aiItems.foldl (fun acc it =>
        match it with
        | some item =>
          if (page_details.map Prod.fst).contains item.url then
            acc ++ [(⟨item.url,
              (((page_details.find? (fun p => p.1 == item.url)).map Prod.snd).getD "N/A"),
              item.reason⟩ : SelectedPage)]
          else acc
        | none => acc) [])).length : Int)
      ≤ ((pyMin max_pages_input MAX_PAGES_FOR_KB_GENERATION).toNat : Int) := this
    _ = pyMin max_pages_input MAX_PAGES_FOR_KB_GENERATION := by
        rw [Int.toNat_of_nonneg hnn]

/-- Witness for the amended C10: a request with `max_pages = 1` and two
valid AI picks yields exactly `min(1, 15) = 1` page. -/
theorem selection_clamped_witness :
    (pages_selected_count 1 [("u1", "T1"), ("u2", "T2")]
        [some ⟨"u1", "r"⟩, some ⟨"u2", "r"⟩] : Int) ≤ pyMin 1 MAX_PAGES_FOR_KB_GENERATION :=
  selection_clamped 1 [("u1", "T1"), ("u2", "T2")]
    [some ⟨"u1", "r"⟩, some ⟨"u2", "r"⟩] (by decide)

/-- Counterexample to C10 as stated: a request with `max_pages = -1`
(nothing rejects a negative value) makes the limit `min(-1, 15) = -1`,
and Python's `[: -1]` then keeps all but the last valid pick — the
job extracts 1 page, which is *not* at most `min(-1, 15)`. -/
theorem selection_negative_max_pages_cex :
    pages_selected_count (-1) [("u1", "T1"), ("u2", "T2")]
        [some ⟨"u1", "r"⟩, some ⟨"u2", "r"⟩] = 1 ∧
    ¬ ((pages_selected_count (-1) [("u1", "T1"), ("u2", "T2")]
        [some ⟨"u1", "r"⟩, some ⟨"u2", "r"⟩] : Int) ≤
      pyMin (-1) MAX_PAGES_FOR_KB_GENERATION) := by
  exact ⟨by decide, by decide⟩
